import Mathlib

/-!
# Verification of the minesweeper-variant game core (`src/minesweeper.py`)

Shallow embedding of the game model and controller of the repository's single
source file `minesweeper.py`.  The embedding covers the parts of the program the
claims are about:

* `Cell`, `GameModel` (the Model), with `cells` embedded as the Python dict
  `self.cells : (x, y) ↦ Cell`; a missing key is `none` (a lookup of a missing
  key raises `KeyError` in Python, which the controller functions surface as
  `PyErr.keyError`).
* `GameModel.setup_board` (random generation).  Python's `random.shuffle` is
  made injectable: the shuffled list of positions is a parameter `perm`, as the
  spec's determinism note prescribes.  Python's two placement loops each write
  a distinct key `(x, y)`, so they are embedded as one total function on keys.
* `GameModel.setup_board_from_file`.  The csv reader's output is embedded as
  `Option (List (List Tok))`: `none` models an unreadable/missing file
  (`FileNotFoundError` / `Exception`), a token `Tok = Option Int` is `some v`
  when `int(tok.strip())` returns `v` and `none` when it raises `ValueError`.
  Python validates rows and tokens left-to-right.  Only the two file-read
  exception handlers fall through to the method-level fallback block
  (`if self.invalid_board: self.cells.clear(); self.setup_board()`); every
  content-validation failure — wrong row count, wrong column count,
  non-integer token, out-of-range value — executes `return` from inside the
  `try`, bypassing that fallback entirely and leaving in the dict exactly the
  cells inserted before the failure, each still carrying the `Cell`
  constructor's `adjacent_mines = 0` (the adjacency pass only runs on
  success).  The embedding mirrors this control flow: `scanRows` locates the
  first content failure and `leftoverCells` is the dictionary it leaves
  behind.
* `GameController.handle_left_click`, `handle_right_click`, `clear_cell`.
  `clear_cell`'s unbounded Python recursion is embedded with a fuel parameter;
  the top-level call supplies fuel `SIZE_X * SIZE_Y + 1`, which exceeds any
  possible nesting depth (every frame that recurses has just turned a distinct
  cell from `STATE_DEFAULT` to `STATE_CLICKED`, so the nesting depth is at most
  the number of cells plus one).
* `GameController.game_over(won, treasure_found)` only sets
  `self.model.game_over = True` and notifies the view; the `(won,
  treasure_found)` arguments passed to it are surfaced as an `Outcome` value in
  the click result, so that win/loss/treasure outcomes are observable.

`self.start_time` is deliberately not part of the state: it is presentation
data (the spec's `started_at`), is only ever written (never read) by the game
logic, and no claim is about it.  The views (`GUIView`, `TextView`) are pure
presentation and are not embedded; `view.update_cell`/`show_game_over` calls
are dropped.

All machine integers of the program are small Python `int`s; they are embedded
as `Nat` where Python keeps them non-negative by construction and as `Int`
where subtraction occurs (`flag_count`, `correct_flag_count`, and the win
comparison `clicked_count == SIZE_X*SIZE_Y - mines - treasures`, whose right
side Python computes in ℤ).
-/

namespace Minesweeper

/-- `STATE_DEFAULT` from the source. -/
def STATE_DEFAULT : Nat := 0

/-- `STATE_CLICKED` from the source. -/
def STATE_CLICKED : Nat := 1

/-- `STATE_FLAGGED` from the source. -/
def STATE_FLAGGED : Nat := 2

/-- `Cell.__init__`: one board cell. -/
structure Cell where
  x : Int
  y : Int
  is_mine : Bool
  is_treasure : Bool
  state : Nat
  adjacent_mines : Nat
deriving DecidableEq

/-- The mutable state of `GameModel` (minus `start_time`, see module comment).
`cells` is the dict `self.cells`; `none` means the key is absent. -/
structure GameModel where
  SIZE_X : Nat
  SIZE_Y : Nat
  num_mines : Nat
  num_treasures : Nat
  flag_count : Int
  correct_flag_count : Int
  clicked_count : Nat
  cells : Int × Int → Option Cell
  mines : Nat
  treasures : Nat
  game_over : Bool
  invalid_board : Bool

/-- `GameModel.get_neighbors`: the up-to-8 in-bounds Moore neighbors, in source
order.  Python appends `self.cells[(nx, ny)]` for each candidate passing the
bounds check; on boards built by the program every in-bounds key is present, so
the absent-key case (`none`) simply contributes nothing. -/
def get_neighbors (m : GameModel) (x y : Int) : List Cell :=
  [(x - 1, y), (x + 1, y), (x, y - 1), (x, y + 1),
   (x - 1, y - 1), (x - 1, y + 1), (x + 1, y - 1), (x + 1, y + 1)].filterMap
    (fun p =>
      if 0 ≤ p.1 ∧ p.1 < (m.SIZE_X : Int) ∧ 0 ≤ p.2 ∧ p.2 < (m.SIZE_Y : Int) then
        m.cells p
      else none)

/-- `GameModel.count_adjacent_mines`: count of mine neighbors, as the source's
accumulating loop. -/
def count_adjacent_mines (m : GameModel) (x y : Int) : Nat :=
  (get_neighbors m x y).foldl (fun count n => if n.is_mine then count + 1 else count) 0

/-- Mutating `cell.state` for the cell stored at key `(x, y)` (Python mutates
the shared `Cell` object; here the map is updated at that key). -/
def updateCellState (m : GameModel) (x y : Int) (st : Nat) : GameModel :=
  { m with cells := fun p =>
      if p = (x, y) then (m.cells p).map (fun c => { c with state := st }) else m.cells p }

/-- The `(won, treasure_found)` arguments of `GameController.game_over`, as an
observable outcome: `game_over(won=False)` is `lost`, `game_over(won=True,
treasure_found=True)` is `wonTreasure`, `game_over(won=True)` is `wonPlain`. -/
inductive Outcome where
  | lost
  | wonTreasure
  | wonPlain
deriving DecidableEq

/-- Python exceptions the controller can surface.  `keyError` is the `KeyError`
of `self.model.cells[(x, y)]` on an absent key.  `boundary` is the "boundary
error" the specification's §7 asks for; the code never produces it — it exists
so the spec's claim about out-of-bounds handling can be stated and compared
with what the code does. -/
inductive PyErr where
  | keyError
  | boundary
deriving DecidableEq

/-- The body of `clear_cell` past its guard: `cell.state = STATE_CLICKED`
followed by `self.model.clicked_count += 1` (which, the state write not
touching the counter, adds one to the counter of `m`). -/
def reveal_step (m : GameModel) (x y : Int) : GameModel :=
  { updateCellState m x y STATE_CLICKED with clicked_count := m.clicked_count + 1 }

/-- `GameController.clear_cell`, with fuel for the Python recursion.  The guard,
the reveal step, and the recursion over `get_neighbors` follow the source; the
recursive calls re-look-up each neighbor's current cell through the state
threaded by the fold, matching Python's mutation of shared `Cell` objects
(`get_neighbors` is evaluated once, but only the immutable coordinates of its
results feed the recursive calls). -/
def clear_cell : Nat → GameModel → Int → Int → GameModel
  | 0, m, _, _ => m
  | fuel + 1, m, x, y =>
    match m.cells (x, y) with
    | none => m
    | some cell =>
      if cell.state ≠ STATE_DEFAULT ∨ cell.is_treasure = true then m
      else if cell.adjacent_mines = 0 then
        (get_neighbors (reveal_step m x y) x y).foldl
          (fun acc n => clear_cell fuel acc n.x n.y) (reveal_step m x y)
      else reveal_step m x y

/-- The win test after `clear_cell` returns (source lines 360–361): `if
self.model.clicked_count == SIZE_X*SIZE_Y - mines - treasures:
self.game_over(won=True)`.  Python evaluates the right side in ℤ. -/
def win_check (m1 : GameModel) : GameModel × Option Outcome × Option PyErr :=
  if (m1.clicked_count : Int) =
      (m1.SIZE_X : Int) * (m1.SIZE_Y : Int) - (m1.mines : Int) - (m1.treasures : Int) then
    ({ m1 with game_over := true }, some Outcome.wonPlain, none)
  else (m1, none, none)

/-- `GameController.handle_left_click`.  Returns the new model, the outcome
passed to `game_over` (if any), and the exception raised (if any).  The dict
lookup is the first statement of the Python method, so a `KeyError` leaves the
state unchanged.  In the mine/treasure branches Python sets
`self.model.game_over = True` both inline and again inside `game_over`; the
embedding sets it once. -/
def handle_left_click (m : GameModel) (x y : Int) :
    GameModel × Option Outcome × Option PyErr :=
  match m.cells (x, y) with
  | none => (m, none, some PyErr.keyError)
  | some cell =>
    if cell.state = STATE_CLICKED ∨ m.game_over = true then (m, none, none)
    else if cell.is_mine = true then
      ({ updateCellState m x y STATE_CLICKED with game_over := true },
        some Outcome.lost, none)
    else if cell.is_treasure = true then
      ({ updateCellState m x y STATE_CLICKED with game_over := true },
        some Outcome.wonTreasure, none)
    else win_check (clear_cell (m.SIZE_X * m.SIZE_Y + 1) m x y)

/-- `GameController.handle_right_click`: flag/unflag toggling.  Note the source
method never consults `self.model.game_over`. -/
def handle_right_click (m : GameModel) (x y : Int) : GameModel × Option PyErr :=
  match m.cells (x, y) with
  | none => (m, some PyErr.keyError)
  | some cell =>
    if cell.state = STATE_DEFAULT then
      let m1 := updateCellState m x y STATE_FLAGGED
      (({ m1 with
          flag_count := m1.flag_count + 1,
          correct_flag_count :=
            if cell.is_mine = true then m1.correct_flag_count + 1 else m1.correct_flag_count }),
        none)
    else if cell.state = STATE_FLAGGED then
      let m1 := updateCellState m x y STATE_DEFAULT
      (({ m1 with
          flag_count := m1.flag_count - 1,
          correct_flag_count :=
            if cell.is_mine = true then m1.correct_flag_count - 1 else m1.correct_flag_count }),
        none)
    else (m, none)

/-! ## Board generation -/

/-- The comprehension `[(x, y) for x in range(SIZE_X) for y in range(SIZE_Y)]`
of `setup_board`. -/
def positionsList (sx sy : Nat) : List (Int × Int) :=
  (List.range sx).flatMap (fun x => (List.range sy).map (fun y => (Int.ofNat x, Int.ofNat y)))

/-- The first pass of board building: create a `Cell` for every in-bounds
`(x, y)` with the given mine/treasure flags (each Python loop iteration writes
one distinct key, so the loop is one total function on keys). -/
def place_cells (m : GameModel) (sx sy : Nat) (mineF treasF : Int × Int → Bool) :
    GameModel :=
  { m with cells := fun p =>
      if 0 ≤ p.1 ∧ p.1 < (sx : Int) ∧ 0 ≤ p.2 ∧ p.2 < (sy : Int) then
        some { x := p.1, y := p.2, is_mine := mineF p, is_treasure := treasF p,
               state := STATE_DEFAULT, adjacent_mines := 0 }
      else none }

/-- The second pass `for cell in self.cells.values(): cell.adjacent_mines =
self.count_adjacent_mines(cell.x, cell.y)` shared by both generation paths.
`count_adjacent_mines` reads only `is_mine` flags, which the pass never writes,
so the Python loop order is irrelevant and the pass is a pointwise map. -/
def compute_adjacency (m : GameModel) : GameModel :=
  { m with cells := fun p =>
      (m.cells p).map (fun c => { c with adjacent_mines := count_adjacent_mines m c.x c.y }) }

/-- `GameModel.setup_board` with the shuffled position list `perm` injected
(Python: `random.shuffle(positions)`).  Mines are the first `num_mines`
entries of `perm`, treasures the next `num_treasures`; the `elif` makes
`is_treasure` require `not is_mine`. -/
def setup_board (perm : List (Int × Int)) (m : GameModel) : GameModel :=
  let mine_positions := perm.take m.num_mines
  let treasure_positions := (perm.drop m.num_mines).take m.num_treasures
  compute_adjacency
    (place_cells m m.SIZE_X m.SIZE_Y
      (fun p => decide (p ∈ mine_positions))
      (fun p => !decide (p ∈ mine_positions) && decide (p ∈ treasure_positions)))

/-- One csv token after `.strip()`: `some v` when `int(tok)` returns `v`,
`none` when it raises `ValueError`. -/
abbrev Tok := Option Int

/-- Classification of one token by `setup_board_from_file`'s inner loop:
`(is_mine, is_treasure)` when the value is in `{0, 1, 2}`, `none` when the
token is a non-integer (`ValueError`) or an out-of-range integer. -/
def tokClass (t : Tok) : Option (Bool × Bool) :=
  match t with
  | none => none
  | some v =>
    if v = 1 then some (true, false)
    else if v = 2 then some (false, true)
    else if v ≠ 0 then none
    else some (false, false)

/-- The success condition of `setup_board_from_file`'s validation: exactly 8
rows, every row exactly 8 columns, every token an integer in `{0, 1, 2}`.
This holds exactly when the left-to-right scan finds no failure
(`rowsWellFormed_iff`). -/
def rowsWellFormed (rows : List (List Tok)) : Bool :=
  rows.length == 8 &&
    rows.all (fun row => row.length == 8 && row.all (fun t => (tokClass t).isSome))

/-- The token of row `r`, column `c` (defaulting an absent index; under
`rowsWellFormed` every index `r, c < 8` is present). -/
def tokAt (rows : List (List Tok)) (r c : Nat) : Tok :=
  (((rows.get? r).getD []).get? c).getD none

/-- `num_mines_file` / `num_treasures_file`: how many tokens of the file equal
`v` (`1` for mines, `2` for treasures). -/
def countTok (rows : List (List Tok)) (v : Int) : Nat :=
  (rows.map (fun row => row.countP (fun t => decide (t = some v)))).sum

/-- One pass of the row/token validation loop of `setup_board_from_file`
(run after the row-count check): the position of the first content failure.
`some (r, none)` means row `r` does not have exactly 8 columns (checked before
any of its cells is processed); `some (r, some c)` means the token at column
`c` of row `r` is a non-integer or an out-of-range value; `none` means every
row passes.  The first argument is the absolute index of the first row of the
list argument (the top-level call passes `0`). -/
def scanRows : Nat → List (List Tok) → Option (Nat × Option Nat)
  | _, [] => none
  | r, row :: rest =>
    if row.length ≠ 8 then some (r, none)
    else
      match row.findIdx? (fun t => !(tokClass t).isSome) with
      | some c => some (r, some c)
      | none => scanRows (r + 1) rest

/-- Whether the key `(r, c)` was written to `self.cells` before the validation
loop hit the content failure `fp`: all 8 cells of every row before the failing
row and — when the failure is a bad token at column `fc` — the cells left of
it in its own row.  The failing cell itself is never inserted: both the
out-of-range branch and the `ValueError` handler `return` before the dict
write, and a row failing its column-count check contributes no cells at
all. -/
def insertedBefore (fp : Nat × Option Nat) (r c : Nat) : Bool :=
  match fp.2 with
  | none => decide (r < fp.1) && decide (c < 8)
  | some fc => (decide (r < fp.1) && decide (c < 8)) || (decide (r = fp.1) && decide (c < fc))

/-- The cell dictionary a content-validation failure `fp` leaves behind:
exactly the cells inserted before the failure, each with the flags of its
(necessarily valid) token and the `Cell` constructor's defaults
`state = STATE_DEFAULT`, `adjacent_mines = 0` — the adjacency pass never runs
on this path, so the zero counts are stale whatever the neighboring mines. -/
def leftoverCells (rows : List (List Tok)) (fp : Nat × Option Nat) :
    Int × Int → Option Cell :=
  fun p =>
    if 0 ≤ p.1 ∧ 0 ≤ p.2 ∧ insertedBefore fp p.1.toNat p.2.toNat = true then
      some { x := p.1, y := p.2,
             is_mine := decide (tokAt rows p.1.toNat p.2.toNat = some 1),
             is_treasure := decide (tokAt rows p.1.toNat p.2.toNat = some 2),
             state := STATE_DEFAULT, adjacent_mines := 0 }
    else none

/-- `GameModel.setup_board_from_file`.  The argument is `none` when the file
cannot be read (`FileNotFoundError` / generic `Exception`): those two handlers
set `invalid_board` and fall through to the method-level fallback
`self.cells.clear(); self.setup_board()`, which rebuilds a random board (with
the model's original `num_mines`/`num_treasures`) while the invalid flag stays
set.  Every content-validation failure, by contrast, executes `return` from
inside the `try` and never reaches that fallback: the model keeps
`invalid_board = true`, the level-default `mines`/`treasures` (the
reassignment from the file counters happens only on success), and exactly the
cells inserted before the failure — the row-count failure before the loop
leaves the dict untouched, a mid-loop failure leaves `leftoverCells`.  On
success the cells are exactly the 8×8 keys of the file, with `is_mine` iff
the token is `1` and `is_treasure` iff it is `2`, the counters are derived
from the file, and adjacency is computed as in `setup_board`. -/
def setup_board_from_file (rows? : Option (List (List Tok))) (perm : List (Int × Int))
    (m : GameModel) : GameModel :=
  match rows? with
  | none => setup_board perm { m with invalid_board := true }
  | some rows =>
    if rows.length ≠ 8 then { m with invalid_board := true }
    else
      match scanRows 0 rows with
      | some fp => { m with invalid_board := true, cells := leftoverCells rows fp }
      | none =>
        compute_adjacency
          (place_cells
            { m with mines := countTok rows 1, treasures := countTok rows 2 } 8 8
            (fun p => decide (tokAt rows p.1.toNat p.2.toNat = some 1))
            (fun p => decide (tokAt rows p.1.toNat p.2.toNat = some 2)))

/-! ## Construction (`GameModel.__init__`, `GameController.__init__`) -/

/-- The keys of the `LEVELS` table; `GameModel.__init__` asserts membership, so
an inductive type models the assertion. -/
inductive LevelName where
  | beginner
  | intermediate
  | expert
deriving DecidableEq

/-- `LEVELS[level]['size_x']`. -/
def level_size_x : LevelName → Nat
  | .beginner => 8
  | .intermediate => 16
  | .expert => 16

/-- `LEVELS[level]['size_y']`. -/
def level_size_y : LevelName → Nat
  | .beginner => 8
  | .intermediate => 16
  | .expert => 30

/-- `LEVELS[level]['mines']`. -/
def level_mines : LevelName → Nat
  | .beginner => 10
  | .intermediate => 40
  | .expert => 99

/-- `LEVELS[level]['treasures']`. -/
def level_treasures : LevelName → Nat
  | .beginner => 1
  | .intermediate => 2
  | .expert => 3

/-- `GameModel.__init__(file_name, level)`: field initialisation followed by
`setup_board` (no file) or `setup_board_from_file` (file given). -/
def init_model (file : Option (Option (List (List Tok)))) (perm : List (Int × Int))
    (level : LevelName) : GameModel :=
  let m0 : GameModel :=
    { SIZE_X := level_size_x level, SIZE_Y := level_size_y level,
      num_mines := level_mines level, num_treasures := level_treasures level,
      flag_count := 0, correct_flag_count := 0, clicked_count := 0,
      cells := fun _ => none,
      mines := level_mines level, treasures := level_treasures level,
      game_over := false, invalid_board := false }
  match file with
  | none => setup_board perm m0
  | some rows? => setup_board_from_file rows? perm m0

/-- `GameController.__init__`: when a test file is given the level is forced to
`'beginner'` (source line "In testing mode, set level to 'beginner'");
otherwise the dialog-chosen level is used. -/
def controller_init (file : Option (Option (List (List Tok)))) (perm : List (Int × Int))
    (level : LevelName) : GameModel :=
  match file with
  | none => init_model none perm level
  | some rows? => init_model (some rows?) perm LevelName.beginner

/-- The freshly initialised beginner model fields before board generation. -/
def m0beginner : GameModel :=
  { SIZE_X := 8, SIZE_Y := 8, num_mines := 10, num_treasures := 1,
    flag_count := 0, correct_flag_count := 0, clicked_count := 0,
    cells := fun _ => none, mines := 10, treasures := 1,
    game_over := false, invalid_board := false }

/-! ## Observation functions and invariants (specification side) -/

/-- `0 <= x < SIZE_X and 0 <= y < SIZE_Y` for model `m`. -/
def inBoundsP (m : GameModel) (x y : Int) : Prop :=
  0 ≤ x ∧ x < (m.SIZE_X : Int) ∧ 0 ≤ y ∧ y < (m.SIZE_Y : Int)

instance (m : GameModel) (x y : Int) : Decidable (inBoundsP m x y) := by
  unfold inBoundsP; infer_instance

/-- Whether the cell stored at `p` is a mine (`false` on an absent key). -/
def isMineB (m : GameModel) (p : Int × Int) : Bool :=
  match m.cells p with
  | some c => c.is_mine
  | none => false

/-- Whether the cell stored at `p` is a treasure (`false` on an absent key). -/
def isTreasureB (m : GameModel) (p : Int × Int) : Bool :=
  match m.cells p with
  | some c => c.is_treasure
  | none => false

/-- Whether the cell stored at `p` is revealed and neither mine nor treasure. -/
def isSafeRevealed (m : GameModel) (p : Int × Int) : Bool :=
  match m.cells p with
  | some c => c.state == STATE_CLICKED && !c.is_mine && !c.is_treasure
  | none => false

/-- Number of mine cells on the board (counted over the in-bounds grid). -/
def mineCount (m : GameModel) : Nat :=
  ((positionsList m.SIZE_X m.SIZE_Y).filter (fun p => isMineB m p)).length

/-- Number of treasure cells on the board. -/
def treasureCount (m : GameModel) : Nat :=
  ((positionsList m.SIZE_X m.SIZE_Y).filter (fun p => isTreasureB m p)).length

/-- Number of revealed safe (non-mine, non-treasure) cells. -/
def safeRevealedCount (m : GameModel) : Nat :=
  ((positionsList m.SIZE_X m.SIZE_Y).filter (fun p => isSafeRevealed m p)).length

/-- The number of mines among the in-bounds 8-connected Moore neighbors of
`(x, y)` — the specification's definition of the adjacency count, stated
independently of `get_neighbors`: a neighbor is any in-bounds cell at Chebyshev
distance exactly 1, i.e. both coordinate offsets within 1 and not the cell
itself. -/
def mooreMineCount (m : GameModel) (x y : Int) : Nat :=
  ((positionsList m.SIZE_X m.SIZE_Y).filter
    (fun p =>
      decide ((p.1 - x).natAbs ≤ 1 ∧ (p.2 - y).natAbs ≤ 1 ∧ p ≠ (x, y)) &&
        isMineB m p)).length

/-- The dict `self.cells` holds exactly the in-bounds keys. -/
def domainOk (m : GameModel) : Prop :=
  ∀ x y : Int, (m.cells (x, y)).isSome = true ↔ inBoundsP m x y

/-- Every stored cell carries its own key as `(cell.x, cell.y)`. -/
def coordsOk (m : GameModel) : Prop :=
  ∀ p c, m.cells p = some c → c.x = p.1 ∧ c.y = p.2

/-- Every stored cell's `adjacent_mines` equals what `count_adjacent_mines`
computes on the current board. -/
def adjacencyOk (m : GameModel) : Prop :=
  ∀ p c, m.cells p = some c → c.adjacent_mines = count_adjacent_mines m p.1 p.2

/-- The board invariants established by generation and preserved by actions. -/
def Invars (m : GameModel) : Prop :=
  domainOk m ∧ coordsOk m ∧ adjacencyOk m

/-- `clicked_count` agrees with the number of revealed safe cells. -/
def clickedOk (m : GameModel) : Prop :=
  m.clicked_count = safeRevealedCount m

/-- The key `(x, y)`, if present, does not hold a mine. -/
def noMineAt (m : GameModel) (x y : Int) : Prop :=
  ∀ c, m.cells (x, y) = some c → c.is_mine = false

/-- How one cell may evolve during a single `clear_cell` cascade: untouched, or
(when it was hidden, not a treasure and not a mine) revealed. -/
def cellStep (c c2 : Cell) : Prop :=
  c2 = c ∨
    (c.state = STATE_DEFAULT ∧ c.is_treasure = false ∧ c.is_mine = false ∧
      c2 = { c with state := STATE_CLICKED })

/-- Relation between a state and the state after a `clear_cell` cascade:
cells evolve by `cellStep`, `clicked_count` grows exactly with the number of
newly revealed safe cells, and every other field is untouched. -/
structure StepRel (m m2 : GameModel) : Prop where
  cells_none : ∀ p, m.cells p = none → m2.cells p = none
  cells_some : ∀ p c, m.cells p = some c → ∃ c2, m2.cells p = some c2 ∧ cellStep c c2
  clicked : m2.clicked_count + safeRevealedCount m = m.clicked_count + safeRevealedCount m2
  size_x : m2.SIZE_X = m.SIZE_X
  size_y : m2.SIZE_Y = m.SIZE_Y
  numm : m2.num_mines = m.num_mines
  numt : m2.num_treasures = m.num_treasures
  flag : m2.flag_count = m.flag_count
  cflag : m2.correct_flag_count = m.correct_flag_count
  minesEq : m2.mines = m.mines
  treasEq : m2.treasures = m.treasures
  over : m2.game_over = m.game_over
  invalid : m2.invalid_board = m.invalid_board

/-- Game states reachable during play (any level, any file input, any
shuffle) by in-bounds left/right clicks.  `GameController.__init__` checks
`self.model.invalid_board` right after constructing the model and, when it is
set, shows a dialog, restarts the application (`main()`) and returns without
ever creating a view or binding the click handlers — so play only starts on
freshly constructed models whose `invalid_board` flag is false.  The `init`
constructor carries that controller-side guard. -/
inductive Reachable : GameModel → Prop where
  | init (file : Option (Option (List (List Tok)))) (perm : List (Int × Int))
      (level : LevelName) :
      (controller_init file perm level).invalid_board = false →
      Reachable (controller_init file perm level)
  | left (m : GameModel) (x y : Int) : Reachable m → inBoundsP m x y →
      Reachable (handle_left_click m x y).1
  | right (m : GameModel) (x y : Int) : Reachable m → inBoundsP m x y →
      Reachable (handle_right_click m x y).1

/-! ## Counting helper lemmas -/

theorem foldl_mine_count (l : List Cell) (k : Nat) :
    l.foldl (fun count n => if n.is_mine then count + 1 else count) k
      = k + l.countP (fun n => n.is_mine) := by
  induction l generalizing k with
  | nil => simp
  | cons a t ih =>
    simp only [List.foldl_cons, List.countP_cons, ih]
    by_cases h : a.is_mine
    · simp [h]
      omega
    · simp [h]

theorem count_adjacent_eq_countP (m : GameModel) (x y : Int) :
    count_adjacent_mines m x y = (get_neighbors m x y).countP (fun n => n.is_mine) := by
  unfold count_adjacent_mines
  simpa using foldl_mine_count (get_neighbors m x y) 0

theorem countP_mine_filterMap (f g : Int × Int → Option Cell)
    (hm : ∀ p, (f p).map Cell.is_mine = (g p).map Cell.is_mine)
    (P : Int × Int → Prop) [DecidablePred P] (l : List (Int × Int)) :
    (l.filterMap (fun p => if P p then f p else none)).countP (fun n => n.is_mine)
      = (l.filterMap (fun p => if P p then g p else none)).countP (fun n => n.is_mine) := by
  induction l with
  | nil => rfl
  | cons a t ih =>
    rw [List.filterMap_cons, List.filterMap_cons]
    by_cases hb : P a
    · simp only [if_pos hb]
      have hma := hm a
      cases h2 : f a with
      | none =>
        cases h1 : g a with
        | none => exact ih
        | some c => rw [h2, h1] at hma; exact absurd hma (by simp)
      | some c2 =>
        cases h1 : g a with
        | none => rw [h2, h1] at hma; exact absurd hma (by simp)
        | some c1 =>
          rw [h2, h1] at hma
          have hmm : c2.is_mine = c1.is_mine := by simpa using hma
          simp [List.countP_cons, ih, hmm]
    · simp only [if_neg hb]
      exact ih

theorem count_adjacent_congr (m m2 : GameModel)
    (hsx : m2.SIZE_X = m.SIZE_X) (hsy : m2.SIZE_Y = m.SIZE_Y)
    (hm : ∀ p, (m2.cells p).map Cell.is_mine = (m.cells p).map Cell.is_mine)
    (x y : Int) :
    count_adjacent_mines m2 x y = count_adjacent_mines m x y := by
  rw [count_adjacent_eq_countP, count_adjacent_eq_countP]
  unfold get_neighbors
  rw [hsx, hsy]
  exact countP_mine_filterMap m2.cells m.cells hm _ _

theorem filter_length_flip {α : Type} (l : List α) (f f2 : α → Bool) (a : α)
    (hnd : l.Nodup) (hal : a ∈ l) (hoff : ∀ b ∈ l, b ≠ a → f2 b = f b)
    (hfa : f a = false) (hf2a : f2 a = true) :
    (l.filter f2).length = (l.filter f).length + 1 := by
  induction l with
  | nil => cases hal
  | cons b t ih =>
    rw [List.nodup_cons] at hnd
    rcases List.mem_cons.mp hal with rfl | hat
    · rw [List.filter_cons, List.filter_cons, hf2a, hfa]
      have hsame : t.filter f2 = t.filter f :=
        List.filter_congr (fun c hc =>
          hoff c (List.mem_cons_of_mem _ hc) (fun he => hnd.1 (he ▸ hc)))
      simp [hsame]
    · have hba : b ≠ a := fun he => hnd.1 (he ▸ hat)
      rw [List.filter_cons, List.filter_cons, hoff b (List.mem_cons_self b t) hba]
      have ihr := ih hnd.2 hat (fun c hc => hoff c (List.mem_cons_of_mem _ hc))
      by_cases hfb : f b = true <;> simp [hfb, ihr]

theorem filter_congr_length {α : Type} (l : List α) (f f2 : α → Bool)
    (h : ∀ b ∈ l, f2 b = f b) :
    (l.filter f2).length = (l.filter f).length := by
  rw [List.filter_congr h]

theorem positionsList_mem (sx sy : Nat) (p : Int × Int) :
    p ∈ positionsList sx sy ↔
      0 ≤ p.1 ∧ p.1 < (sx : Int) ∧ 0 ≤ p.2 ∧ p.2 < (sy : Int) := by
  obtain ⟨a, b⟩ := p
  unfold positionsList
  simp only [List.mem_flatMap, List.mem_map, List.mem_range, Prod.mk.injEq]
  constructor
  · rintro ⟨x, hx, y, hy, hxa, hyb⟩
    rw [← hxa, ← hyb]
    constructor
    · exact Int.ofNat_nonneg x
    constructor
    · exact Int.ofNat_lt.mpr hx
    exact ⟨Int.ofNat_nonneg y, Int.ofNat_lt.mpr hy⟩
  · rintro ⟨h1, h2, h3, h4⟩
    refine ⟨a.toNat, by omega, b.toNat, by omega, ?_, ?_⟩
    · rw [Int.ofNat_eq_natCast]
      omega
    · rw [Int.ofNat_eq_natCast]
      omega

theorem positionsList_mem_iff_inBounds (m : GameModel) (p : Int × Int) :
    p ∈ positionsList m.SIZE_X m.SIZE_Y ↔ inBoundsP m p.1 p.2 := by
  rw [positionsList_mem]
  unfold inBoundsP
  exact Iff.rfl

theorem positionsList_nodup (sx sy : Nat) : (positionsList sx sy).Nodup := by
  unfold positionsList
  rw [List.nodup_flatMap]
  constructor
  · intro x _
    exact (List.nodup_range sy).map (fun a b h => by simpa using h)
  · refine List.Pairwise.imp ?_ (List.nodup_range sx)
    intro a b hab q hqa hqb
    simp only [List.mem_map, List.mem_range] at hqa hqb
    obtain ⟨ya, _, rfl⟩ := hqa
    obtain ⟨yb, _, hb⟩ := hqb
    have hfst : Int.ofNat b = Int.ofNat a := congrArg Prod.fst hb
    rw [Int.ofNat_eq_natCast, Int.ofNat_eq_natCast] at hfst
    exact hab (by omega)

theorem positionsList_length (sx sy : Nat) : (positionsList sx sy).length = sx * sy := by
  unfold positionsList
  rw [List.length_flatMap]
  have hmap : ((List.range sx).map
      (List.length ∘ fun x => (List.range sy).map (fun y => (Int.ofNat x, Int.ofNat y))))
      = (List.range sx).map (fun _ => sy) := by
    apply List.map_congr_left
    intro x _
    simp [Function.comp_def]
  rw [hmap, List.map_const', List.sum_replicate, List.length_range, smul_eq_mul,
    Nat.mul_comm]

theorem filter_mem_length {α : Type} (l s : List α) (f : α → Bool)
    (hf : ∀ a, f a = true ↔ a ∈ s)
    (hl : l.Nodup) (hs : s.Nodup) (hsub : ∀ a ∈ s, a ∈ l) :
    (l.filter f).length = s.length := by
  have h1 : (l.filter f).Nodup := hl.filter _
  have hperm : (l.filter f).Perm s := by
    rw [List.perm_ext_iff_of_nodup h1 hs]
    intro a
    simp only [List.mem_filter]
    constructor
    · intro h
      exact (hf a).mp h.2
    · intro h
      exact ⟨hsub a h, (hf a).mpr h⟩
  exact hperm.length_eq

theorem filter_length_eq_of_mem_iff {α : Type} (l1 l2 : List α) (f1 f2 : α → Bool)
    (h1 : l1.Nodup) (h2 : l2.Nodup)
    (hmem : ∀ a, a ∈ l1.filter f1 ↔ a ∈ l2.filter f2) :
    (l1.filter f1).length = (l2.filter f2).length :=
  ((List.perm_ext_iff_of_nodup (h1.filter _) (h2.filter _)).mpr hmem).length_eq

/-! ## `StepRel` algebra -/

theorem stepRel_refl (m : GameModel) : StepRel m m :=
  ⟨fun _ h => h, fun _ c h => ⟨c, h, Or.inl rfl⟩, rfl, rfl, rfl, rfl, rfl, rfl, rfl,
    rfl, rfl, rfl, rfl⟩

theorem stepRel_trans {m1 m2 m3 : GameModel} (h12 : StepRel m1 m2) (h23 : StepRel m2 m3) :
    StepRel m1 m3 := by
  refine ⟨?_, ?_, ?_, h23.size_x.trans h12.size_x, h23.size_y.trans h12.size_y,
    h23.numm.trans h12.numm, h23.numt.trans h12.numt, h23.flag.trans h12.flag,
    h23.cflag.trans h12.cflag, h23.minesEq.trans h12.minesEq,
    h23.treasEq.trans h12.treasEq, h23.over.trans h12.over,
    h23.invalid.trans h12.invalid⟩
  · intro p h
    exact h23.cells_none p (h12.cells_none p h)
  · intro p c h
    obtain ⟨c2, hc2, hs2⟩ := h12.cells_some p c h
    obtain ⟨c3, hc3, hs3⟩ := h23.cells_some p c2 hc2
    refine ⟨c3, hc3, ?_⟩
    rcases hs2 with rfl | ⟨hst, ht, hm, rfl⟩
    · exact hs3
    · rcases hs3 with rfl | ⟨hst3, _, _, _⟩
      · exact Or.inr ⟨hst, ht, hm, rfl⟩
      · simp [STATE_CLICKED, STATE_DEFAULT] at hst3
  · have a := h12.clicked
    have b := h23.clicked
    omega

theorem stepRel_mines_agree {m m2 : GameModel} (h : StepRel m m2) (p : Int × Int) :
    (m2.cells p).map Cell.is_mine = (m.cells p).map Cell.is_mine := by
  cases hc : m.cells p with
  | none => rw [h.cells_none p hc]
  | some c =>
    obtain ⟨c2, hc2, hs⟩ := h.cells_some p c hc
    rw [hc2]
    rcases hs with rfl | ⟨_, _, _, rfl⟩ <;> rfl

theorem stepRel_isSome {m m2 : GameModel} (h : StepRel m m2) (p : Int × Int) :
    (m2.cells p).isSome = (m.cells p).isSome := by
  have hma := stepRel_mines_agree h p
  have h1 : ((m2.cells p).map Cell.is_mine).isSome = ((m.cells p).map Cell.is_mine).isSome := by
    rw [hma]
  simpa using h1

theorem stepRel_some_of_some {m m2 : GameModel} (h : StepRel m m2) {p : Int × Int}
    {c2 : Cell} (h2 : m2.cells p = some c2) :
    ∃ c, m.cells p = some c ∧ cellStep c c2 := by
  cases hc : m.cells p with
  | none => rw [h.cells_none p hc] at h2; cases h2
  | some c =>
    obtain ⟨c2', hc2, hs⟩ := h.cells_some p c hc
    rw [hc2] at h2
    exact ⟨c, rfl, Option.some.inj h2 ▸ hs⟩

theorem stepRel_invars {m m2 : GameModel} (hI : Invars m) (h : StepRel m m2) :
    Invars m2 := by
  obtain ⟨hdom, hco, hadj⟩ := hI
  refine ⟨?_, ?_, ?_⟩
  · intro x y
    have hd := hdom x y
    unfold inBoundsP at hd ⊢
    rw [h.size_x, h.size_y, stepRel_isSome h]
    exact hd
  · intro p c2 h2
    obtain ⟨c, hc, hs⟩ := stepRel_some_of_some h h2
    have := hco p c hc
    rcases hs with rfl | ⟨_, _, _, rfl⟩ <;> exact this
  · intro p c2 h2
    obtain ⟨c, hc, hs⟩ := stepRel_some_of_some h h2
    have hadjc := hadj p c hc
    have hcongr := count_adjacent_congr m m2 h.size_x h.size_y (stepRel_mines_agree h) p.1 p.2
    rcases hs with rfl | ⟨_, _, _, rfl⟩ <;> rw [hcongr] <;> exact hadjc

theorem stepRel_noMineAt {m m2 : GameModel} (h : StepRel m m2) {x y : Int}
    (hn : noMineAt m x y) : noMineAt m2 x y := by
  intro c2 h2
  obtain ⟨c, hc, hs⟩ := stepRel_some_of_some h h2
  have := hn c hc
  rcases hs with rfl | ⟨_, _, _, rfl⟩ <;> exact this

/-! ## The `clear_cell` cascade satisfies `StepRel` -/

theorem reveal_step_cells (m : GameModel) (x y : Int) (p : Int × Int) :
    (reveal_step m x y).cells p =
      if p = (x, y) then (m.cells p).map (fun c => { c with state := STATE_CLICKED })
      else m.cells p := rfl

theorem reveal_stepRel (m : GameModel) (x y : Int) (cell : Cell)
    (hdom : domainOk m) (hc : m.cells (x, y) = some cell)
    (hst : cell.state = STATE_DEFAULT) (ht : cell.is_treasure = false)
    (hm : cell.is_mine = false) :
    StepRel m (reveal_step m x y) := by
  have hflip : safeRevealedCount (reveal_step m x y) = safeRevealedCount m + 1 := by
    have hmem : (x, y) ∈ positionsList m.SIZE_X m.SIZE_Y := by
      rw [positionsList_mem_iff_inBounds]
      exact (hdom x y).mp (by rw [hc]; rfl)
    have hoff : ∀ b ∈ positionsList m.SIZE_X m.SIZE_Y, b ≠ (x, y) →
        isSafeRevealed (reveal_step m x y) b = isSafeRevealed m b := by
      intro b _ hb
      unfold isSafeRevealed
      rw [reveal_step_cells, if_neg hb]
    have hfa : isSafeRevealed m (x, y) = false := by
      unfold isSafeRevealed
      rw [hc]
      simp [hst, STATE_DEFAULT, STATE_CLICKED]
    have hf2a : isSafeRevealed (reveal_step m x y) (x, y) = true := by
      unfold isSafeRevealed
      rw [reveal_step_cells, if_pos rfl, hc]
      simp [hm, ht, STATE_CLICKED]
    exact filter_length_flip (positionsList m.SIZE_X m.SIZE_Y)
      (fun p => isSafeRevealed m p) (fun p => isSafeRevealed (reveal_step m x y) p)
      (x, y) (positionsList_nodup _ _) hmem hoff hfa hf2a
  refine ⟨?_, ?_, ?_, rfl, rfl, rfl, rfl, rfl, rfl, rfl, rfl, rfl, rfl⟩
  · intro p hp
    rw [reveal_step_cells]
    by_cases he : p = (x, y)
    · subst he
      rw [hc] at hp
      cases hp
    · rw [if_neg he]
      exact hp
  · intro p c hpc
    by_cases he : p = (x, y)
    · subst he
      have hcc : c = cell := by
        have h2 := hpc
        rw [hc] at h2
        exact (Option.some.inj h2).symm
      subst hcc
      refine ⟨{ c with state := STATE_CLICKED }, ?_, Or.inr ⟨hst, ht, hm, rfl⟩⟩
      rw [reveal_step_cells, if_pos rfl, hpc]
      rfl
    · refine ⟨c, ?_, Or.inl rfl⟩
      rw [reveal_step_cells, if_neg he]
      exact hpc
  · have h2 : (reveal_step m x y).clicked_count = m.clicked_count + 1 := rfl
    rw [h2, hflip]
    omega

theorem clear_cell_fold (fuel : Nat)
    (ih : ∀ (m : GameModel) (x y : Int), Invars m → noMineAt m x y →
      StepRel m (clear_cell fuel m x y)) (m0 : GameModel) :
    ∀ (l : List Cell) (acc : GameModel), Invars acc → StepRel m0 acc →
      (∀ n ∈ l, noMineAt m0 n.x n.y) →
      StepRel m0 (l.foldl (fun acc n => clear_cell fuel acc n.x n.y) acc) := by
  intro l
  induction l with
  | nil => intro acc _ h _; exact h
  | cons n t iht =>
    intro acc hIacc hrel hmines
    rw [List.foldl_cons]
    have hnm : noMineAt acc n.x n.y :=
      stepRel_noMineAt hrel (hmines n (List.mem_cons_self n t))
    have hstep : StepRel acc (clear_cell fuel acc n.x n.y) := ih acc n.x n.y hIacc hnm
    exact iht (clear_cell fuel acc n.x n.y) (stepRel_invars hIacc hstep)
      (stepRel_trans hrel hstep) (fun q hq => hmines q (List.mem_cons_of_mem n hq))

theorem clear_cell_stepRel (fuel : Nat) :
    ∀ (m : GameModel) (x y : Int), Invars m → noMineAt m x y →
      StepRel m (clear_cell fuel m x y) := by
  induction fuel with
  | zero => intro m x y _ _; exact stepRel_refl m
  | succ fuel ih =>
    intro m x y hInv hNoMine
    rw [clear_cell]
    cases hc : m.cells (x, y) with
    | none => exact stepRel_refl m
    | some cell =>
      show StepRel m
        (if cell.state ≠ STATE_DEFAULT ∨ cell.is_treasure = true then m
         else if cell.adjacent_mines = 0 then
           (get_neighbors (reveal_step m x y) x y).foldl
             (fun acc n => clear_cell fuel acc n.x n.y) (reveal_step m x y)
         else reveal_step m x y)
      by_cases hg : cell.state ≠ STATE_DEFAULT ∨ cell.is_treasure = true
      · rw [if_pos hg]
        exact stepRel_refl m
      · rw [if_neg hg]
        push_neg at hg
        obtain ⟨hst, htr⟩ := hg
        have htr2 : cell.is_treasure = false := by
          cases h : cell.is_treasure
          · rfl
          · exact absurd h htr
        have hmine : cell.is_mine = false := hNoMine cell hc
        have hrel2 : StepRel m (reveal_step m x y) :=
          reveal_stepRel m x y cell hInv.1 hc hst htr2 hmine
        have hInv2 : Invars (reveal_step m x y) := stepRel_invars hInv hrel2
        by_cases hadj : cell.adjacent_mines = 0
        · rw [if_pos hadj]
          have hadjc : cell.adjacent_mines = count_adjacent_mines m x y :=
            hInv.2.2 (x, y) cell hc
          have hcnt : (get_neighbors m x y).countP (fun n => n.is_mine) = 0 := by
            rw [← count_adjacent_eq_countP, ← hadjc]
            exact hadj
          have hall : ∀ c ∈ get_neighbors m x y, c.is_mine = false := by
            intro c hcm
            have := List.countP_eq_zero.mp hcnt c hcm
            simpa using this
          have hneighbors : ∀ n ∈ get_neighbors (reveal_step m x y) x y,
              noMineAt m n.x n.y := by
            intro n hn
            obtain ⟨p, hpL, hpf⟩ := List.mem_filterMap.mp hn
            by_cases hb : 0 ≤ p.1 ∧ p.1 < ((reveal_step m x y).SIZE_X : Int) ∧
                0 ≤ p.2 ∧ p.2 < ((reveal_step m x y).SIZE_Y : Int)
            · rw [if_pos hb] at hpf
              obtain ⟨hx2, hy2⟩ := hInv2.2.1 p n hpf
              rw [hx2, hy2]
              intro c' hc'
              have hb' : 0 ≤ p.1 ∧ p.1 < (m.SIZE_X : Int) ∧ 0 ≤ p.2 ∧
                  p.2 < (m.SIZE_Y : Int) := hb
              have hc'm : c' ∈ get_neighbors m x y := by
                apply List.mem_filterMap.mpr
                refine ⟨p, hpL, ?_⟩
                rw [if_pos hb']
                obtain ⟨a, b⟩ := p
                exact hc'
              exact hall c' hc'm
            · rw [if_neg hb] at hpf
              cases hpf
          exact clear_cell_fold fuel ih m (get_neighbors (reveal_step m x y) x y)
            (reveal_step m x y) hInv2 hrel2 hneighbors
        · rw [if_neg hadj]
          exact hrel2

/-! ## Properties of board generation -/

theorem place_cells_cells (m : GameModel) (sx sy : Nat) (mineF treasF : Int × Int → Bool)
    (p : Int × Int) :
    (place_cells m sx sy mineF treasF).cells p =
      if 0 ≤ p.1 ∧ p.1 < (sx : Int) ∧ 0 ≤ p.2 ∧ p.2 < (sy : Int) then
        some { x := p.1, y := p.2, is_mine := mineF p, is_treasure := treasF p,
               state := STATE_DEFAULT, adjacent_mines := 0 }
      else none := rfl

theorem compute_adjacency_cells (m : GameModel) (p : Int × Int) :
    (compute_adjacency m).cells p =
      (m.cells p).map (fun c => { c with adjacent_mines := count_adjacent_mines m c.x c.y }) :=
  rfl

theorem compute_adjacency_mines_agree (m : GameModel) (p : Int × Int) :
    ((compute_adjacency m).cells p).map Cell.is_mine = (m.cells p).map Cell.is_mine := by
  rw [compute_adjacency_cells]
  cases m.cells p <;> rfl

theorem built_domainOk (m : GameModel) (sx sy : Nat) (mineF treasF : Int × Int → Bool)
    (hsx : sx = m.SIZE_X) (hsy : sy = m.SIZE_Y) :
    domainOk (compute_adjacency (place_cells m sx sy mineF treasF)) := by
  subst hsx
  subst hsy
  intro x y
  rw [compute_adjacency_cells, place_cells_cells]
  by_cases hP : 0 ≤ x ∧ x < (m.SIZE_X : Int) ∧ 0 ≤ y ∧ y < (m.SIZE_Y : Int)
  · exact iff_of_true (by rw [if_pos hP]; rfl) hP
  · exact iff_of_false (by rw [if_neg hP]; simp) hP

theorem built_coordsOk (m : GameModel) (sx sy : Nat) (mineF treasF : Int × Int → Bool) :
    coordsOk (compute_adjacency (place_cells m sx sy mineF treasF)) := by
  intro p c h
  rw [compute_adjacency_cells, place_cells_cells] at h
  by_cases hP : 0 ≤ p.1 ∧ p.1 < (sx : Int) ∧ 0 ≤ p.2 ∧ p.2 < (sy : Int)
  · rw [if_pos hP] at h
    have := Option.some.inj h
    rw [← this]
    exact ⟨rfl, rfl⟩
  · rw [if_neg hP] at h
    cases h

theorem built_state_default (m : GameModel) (sx sy : Nat)
    (mineF treasF : Int × Int → Bool) (p : Int × Int) (c : Cell)
    (h : (compute_adjacency (place_cells m sx sy mineF treasF)).cells p = some c) :
    c.state = STATE_DEFAULT := by
  rw [compute_adjacency_cells, place_cells_cells] at h
  by_cases hP : 0 ≤ p.1 ∧ p.1 < (sx : Int) ∧ 0 ≤ p.2 ∧ p.2 < (sy : Int)
  · rw [if_pos hP] at h
    have := Option.some.inj h
    rw [← this]
  · rw [if_neg hP] at h
    cases h

theorem built_adjacencyOk (m : GameModel) (sx sy : Nat)
    (mineF treasF : Int × Int → Bool) :
    adjacencyOk (compute_adjacency (place_cells m sx sy mineF treasF)) := by
  intro p c h
  have hcongr := count_adjacent_congr (place_cells m sx sy mineF treasF)
    (compute_adjacency (place_cells m sx sy mineF treasF)) rfl rfl
    (compute_adjacency_mines_agree _) p.1 p.2
  rw [compute_adjacency_cells, place_cells_cells] at h
  by_cases hP : 0 ≤ p.1 ∧ p.1 < (sx : Int) ∧ 0 ≤ p.2 ∧ p.2 < (sy : Int)
  · rw [if_pos hP] at h
    have hc := Option.some.inj h
    rw [← hc, hcongr]
  · rw [if_neg hP] at h
    cases h

theorem built_isMineB (m : GameModel) (sx sy : Nat) (mineF treasF : Int × Int → Bool)
    (p : Int × Int) :
    isMineB (compute_adjacency (place_cells m sx sy mineF treasF)) p =
      (decide (0 ≤ p.1 ∧ p.1 < (sx : Int) ∧ 0 ≤ p.2 ∧ p.2 < (sy : Int)) && mineF p) := by
  unfold isMineB
  rw [compute_adjacency_cells, place_cells_cells]
  by_cases hP : 0 ≤ p.1 ∧ p.1 < (sx : Int) ∧ 0 ≤ p.2 ∧ p.2 < (sy : Int)
  · rw [if_pos hP]
    simp [hP]
  · rw [if_neg hP]
    simp [hP]

theorem built_isTreasureB (m : GameModel) (sx sy : Nat) (mineF treasF : Int × Int → Bool)
    (p : Int × Int) :
    isTreasureB (compute_adjacency (place_cells m sx sy mineF treasF)) p =
      (decide (0 ≤ p.1 ∧ p.1 < (sx : Int) ∧ 0 ≤ p.2 ∧ p.2 < (sy : Int)) && treasF p) := by
  unfold isTreasureB
  rw [compute_adjacency_cells, place_cells_cells]
  by_cases hP : 0 ≤ p.1 ∧ p.1 < (sx : Int) ∧ 0 ≤ p.2 ∧ p.2 < (sy : Int)
  · rw [if_pos hP]
    simp [hP]
  · rw [if_neg hP]
    simp [hP]

theorem built_flags (m : GameModel) (sx sy : Nat) (mineF treasF : Int × Int → Bool)
    (p : Int × Int) (c : Cell)
    (h : (compute_adjacency (place_cells m sx sy mineF treasF)).cells p = some c) :
    c.is_mine = mineF p ∧ c.is_treasure = treasF p := by
  rw [compute_adjacency_cells, place_cells_cells] at h
  by_cases hP : 0 ≤ p.1 ∧ p.1 < (sx : Int) ∧ 0 ≤ p.2 ∧ p.2 < (sy : Int)
  · rw [if_pos hP] at h
    have := Option.some.inj h
    rw [← this]
    exact ⟨rfl, rfl⟩
  · rw [if_neg hP] at h
    cases h

theorem built_safeRevealedCount (m : GameModel) (sx sy : Nat)
    (mineF treasF : Int × Int → Bool) :
    safeRevealedCount (compute_adjacency (place_cells m sx sy mineF treasF)) = 0 := by
  unfold safeRevealedCount
  have hnil : ((positionsList
      (compute_adjacency (place_cells m sx sy mineF treasF)).SIZE_X
      (compute_adjacency (place_cells m sx sy mineF treasF)).SIZE_Y).filter
        (fun p => isSafeRevealed (compute_adjacency (place_cells m sx sy mineF treasF)) p))
      = [] := by
    apply List.filter_eq_nil_iff.mpr
    intro p _
    unfold isSafeRevealed
    cases h : (compute_adjacency (place_cells m sx sy mineF treasF)).cells p with
    | none => simp
    | some c =>
      have hd := built_state_default m sx sy mineF treasF p c h
      simp [hd, STATE_DEFAULT, STATE_CLICKED]
  rw [hnil]
  rfl

theorem setup_board_invars (perm : List (Int × Int)) (m : GameModel) :
    Invars (setup_board perm m) :=
  ⟨built_domainOk m m.SIZE_X m.SIZE_Y _ _ rfl rfl,
   built_coordsOk m m.SIZE_X m.SIZE_Y _ _,
   built_adjacencyOk m m.SIZE_X m.SIZE_Y _ _⟩

theorem setup_board_clickedOk (perm : List (Int × Int)) (m : GameModel)
    (h0 : m.clicked_count = 0) : clickedOk (setup_board perm m) := by
  unfold clickedOk
  have h1 : (setup_board perm m).clicked_count = m.clicked_count := rfl
  have h2 : safeRevealedCount (setup_board perm m) = 0 :=
    built_safeRevealedCount m m.SIZE_X m.SIZE_Y _ _
  rw [h1, h2, h0]

theorem setup_board_from_file_unfold_some (rows : List (List Tok))
    (perm : List (Int × Int)) (m : GameModel) :
    setup_board_from_file (some rows) perm m =
      (if rows.length ≠ 8 then { m with invalid_board := true }
       else
        match scanRows 0 rows with
        | some fp => { m with invalid_board := true, cells := leftoverCells rows fp }
        | none =>
          compute_adjacency
            (place_cells
              { m with mines := countTok rows 1, treasures := countTok rows 2 } 8 8
              (fun p => decide (tokAt rows p.1.toNat p.2.toNat = some 1))
              (fun p => decide (tokAt rows p.1.toNat p.2.toNat = some 2)))) := rfl

/-- The row-count failure (the first check): `invalid_board` is set and the
method returns at once — no cells were inserted yet and, crucially, the
fallback block is bypassed, so `m` is otherwise untouched. -/
theorem setup_board_from_file_badlen (rows : List (List Tok))
    (perm : List (Int × Int)) (m : GameModel) (hlen : rows.length ≠ 8) :
    setup_board_from_file (some rows) perm m = { m with invalid_board := true } := by
  rw [setup_board_from_file_unfold_some, if_pos hlen]

/-- A content failure inside the loop: `invalid_board` is set and the method
returns with exactly the cells inserted before the failure; the fallback block
is bypassed and `mines`/`treasures` keep their prior values. -/
theorem setup_board_from_file_midfail (rows : List (List Tok))
    (perm : List (Int × Int)) (m : GameModel) (fp : Nat × Option Nat)
    (hlen : rows.length = 8) (hscan : scanRows 0 rows = some fp) :
    setup_board_from_file (some rows) perm m =
      { m with invalid_board := true, cells := leftoverCells rows fp } := by
  rw [setup_board_from_file_unfold_some, if_neg (by simp [hlen]), hscan]

/-- `scanRows` finds no failure exactly when every row has 8 columns of valid
tokens. -/
theorem scanRows_none (rows : List (List Tok)) : ∀ r : Nat,
    scanRows r rows = none ↔
      ∀ row ∈ rows, row.length = 8 ∧ ∀ t ∈ row, (tokClass t).isSome = true := by
  induction rows with
  | nil =>
    intro r
    simp [scanRows]
  | cons row rest ih =>
    intro r
    unfold scanRows
    by_cases hl : row.length ≠ 8
    · rw [if_pos hl]
      constructor
      · intro h
        cases h
      · intro h
        exact absurd (h row (List.mem_cons_self row rest)).1 hl
    · rw [if_neg hl]
      have hl8 : row.length = 8 := by omega
      cases hf : row.findIdx? (fun t => !(tokClass t).isSome) with
      | some c =>
        show some (r, some c) = none ↔ _
        constructor
        · intro h
          cases h
        · intro h
          have hnone : row.findIdx? (fun t => !(tokClass t).isSome) = none := by
            rw [List.findIdx?_eq_none_iff]
            intro t ht
            have hv := (h row (List.mem_cons_self row rest)).2 t ht
            simp [hv]
          rw [hnone] at hf
          cases hf
      | none =>
        show scanRows (r + 1) rest = none ↔ _
        rw [ih (r + 1)]
        constructor
        · intro h row2 hrow2
          rcases List.mem_cons.mp hrow2 with heq | h2
          · subst heq
            refine ⟨hl8, fun t ht => ?_⟩
            have hv := List.findIdx?_eq_none_iff.mp hf t ht
            simpa using hv
          · exact h row2 h2
        · intro h row2 h2
          exact h row2 (List.mem_cons_of_mem row h2)

/-- `rowsWellFormed` is exactly "8 rows and the scan finds no failure". -/
theorem rowsWellFormed_iff (rows : List (List Tok)) :
    rowsWellFormed rows = true ↔ rows.length = 8 ∧ scanRows 0 rows = none := by
  rw [scanRows_none rows 0]
  unfold rowsWellFormed
  simp [List.all_eq_true, Bool.and_eq_true, beq_iff_eq]

/-- A fully valid file builds the board: the loop completes, the counters are
reassigned from the file and the adjacency pass runs. -/
theorem setup_board_from_file_success (rows : List (List Tok))
    (perm : List (Int × Int)) (m : GameModel) (hwf : rowsWellFormed rows = true) :
    setup_board_from_file (some rows) perm m =
      compute_adjacency
        (place_cells
          { m with mines := countTok rows 1, treasures := countTok rows 2 } 8 8
          (fun p => decide (tokAt rows p.1.toNat p.2.toNat = some 1))
          (fun p => decide (tokAt rows p.1.toNat p.2.toNat = some 2))) := by
  obtain ⟨hlen, hscan⟩ := (rowsWellFormed_iff rows).mp hwf
  rw [setup_board_from_file_unfold_some, if_neg (by simp [hlen]), hscan]

/-- On the constructions the controller lets through to actual play — those
with `invalid_board = false`, i.e. the no-file random board and the fully
valid file board (both paths that set the flag keep it set to the end) — the
board invariants hold and no cell is revealed yet. -/
theorem controller_init_invars (file : Option (Option (List (List Tok))))
    (perm : List (Int × Int)) (level : LevelName)
    (hvalid : (controller_init file perm level).invalid_board = false) :
    Invars (controller_init file perm level) ∧ clickedOk (controller_init file perm level) := by
  cases file with
  | none => exact ⟨setup_board_invars perm _, setup_board_clickedOk perm _ rfl⟩
  | some rows? =>
    cases rows? with
    | none => exact ⟨setup_board_invars perm _, setup_board_clickedOk perm _ rfl⟩
    | some rows =>
      have hE0 : controller_init (some (some rows)) perm level
          = setup_board_from_file (some rows) perm m0beginner := rfl
      by_cases hlen : rows.length = 8
      · cases hscan : scanRows 0 rows with
        | some fp =>
          exfalso
          have hT : (controller_init (some (some rows)) perm level).invalid_board = true := by
            rw [hE0, setup_board_from_file_midfail rows perm m0beginner fp hlen hscan]
          rw [hT] at hvalid
          cases hvalid
        | none =>
          have hwf : rowsWellFormed rows = true :=
            (rowsWellFormed_iff rows).mpr ⟨hlen, hscan⟩
          rw [hE0, setup_board_from_file_success rows perm m0beginner hwf]
          refine ⟨⟨built_domainOk _ 8 8 _ _ rfl rfl, built_coordsOk _ 8 8 _ _,
            built_adjacencyOk _ 8 8 _ _⟩, ?_⟩
          unfold clickedOk
          rw [built_safeRevealedCount]
          rfl
      · exfalso
        have hT : (controller_init (some (some rows)) perm level).invalid_board = true := by
          rw [hE0, setup_board_from_file_badlen rows perm m0beginner hlen]
        rw [hT] at hvalid
        cases hvalid

/-- The file path correctly falls through to the `setup_board_from_file`
branch: unfolding `controller_init` and `init_model` for a file input,
regardless of the dialog-chosen level the model is the beginner model. -/
theorem controller_init_file (rows? : Option (List (List Tok)))
    (perm : List (Int × Int)) (level : LevelName) :
    controller_init (some rows?) perm level =
      init_model (some rows?) perm LevelName.beginner := rfl

/-! ## The click handlers preserve the invariants -/

theorem updateCellState_cells (m : GameModel) (x y : Int) (st : Nat) (p : Int × Int) :
    (updateCellState m x y st).cells p =
      if p = (x, y) then (m.cells p).map (fun c => { c with state := st })
      else m.cells p := rfl

theorem updateCellState_mines_agree (m : GameModel) (x y : Int) (st : Nat)
    (p : Int × Int) :
    ((updateCellState m x y st).cells p).map Cell.is_mine = (m.cells p).map Cell.is_mine := by
  rw [updateCellState_cells]
  by_cases he : p = (x, y)
  · rw [if_pos he]
    cases m.cells p <;> rfl
  · rw [if_neg he]

theorem updateCellState_invars (m : GameModel) (x y : Int) (st : Nat) (hI : Invars m) :
    Invars (updateCellState m x y st) := by
  obtain ⟨hdom, hco, hadj⟩ := hI
  refine ⟨?_, ?_, ?_⟩
  · intro a b
    have hd := hdom a b
    unfold inBoundsP at hd ⊢
    have hs : ((updateCellState m x y st).cells (a, b)).isSome = (m.cells (a, b)).isSome := by
      have h1 := updateCellState_mines_agree m x y st (a, b)
      have h2 : (((updateCellState m x y st).cells (a, b)).map Cell.is_mine).isSome
          = ((m.cells (a, b)).map Cell.is_mine).isSome := by rw [h1]
      simpa using h2
    rw [hs]
    exact hd
  · intro p c h
    rw [updateCellState_cells] at h
    by_cases he : p = (x, y)
    · rw [if_pos he] at h
      cases hm : m.cells p with
      | none => rw [hm] at h; cases h
      | some c0 =>
        rw [hm] at h
        have h2 := Option.some.inj h
        have hxy := hco p c0 hm
        rw [← h2]
        exact hxy
    · rw [if_neg he] at h
      exact hco p c h
  · intro p c h
    have hcongr := count_adjacent_congr m (updateCellState m x y st) rfl rfl
      (updateCellState_mines_agree m x y st) p.1 p.2
    rw [hcongr]
    rw [updateCellState_cells] at h
    by_cases he : p = (x, y)
    · rw [if_pos he] at h
      cases hm : m.cells p with
      | none => rw [hm] at h; cases h
      | some c0 =>
        rw [hm] at h
        have h2 := Option.some.inj h
        have := hadj p c0 hm
        rw [← h2]
        exact this
    · rw [if_neg he] at h
      exact hadj p c h

theorem safeRevealedCount_update (m : GameModel) (x y : Int) (st : Nat)
    (hsame : isSafeRevealed (updateCellState m x y st) (x, y) = isSafeRevealed m (x, y)) :
    safeRevealedCount (updateCellState m x y st) = safeRevealedCount m := by
  unfold safeRevealedCount
  apply filter_congr_length
  intro b _
  by_cases he : b = (x, y)
  · rw [he]
    exact hsame
  · unfold isSafeRevealed
    rw [updateCellState_cells, if_neg he]

theorem win_check_invars (m1 : GameModel) (h : Invars m1) : Invars (win_check m1).1 := by
  unfold win_check
  by_cases hw : (m1.clicked_count : Int) =
      (m1.SIZE_X : Int) * (m1.SIZE_Y : Int) - (m1.mines : Int) - (m1.treasures : Int)
  · rw [if_pos hw]
    exact h
  · rw [if_neg hw]
    exact h

theorem win_check_clickedOk (m1 : GameModel) (h : clickedOk m1) :
    clickedOk (win_check m1).1 := by
  unfold win_check
  by_cases hw : (m1.clicked_count : Int) =
      (m1.SIZE_X : Int) * (m1.SIZE_Y : Int) - (m1.mines : Int) - (m1.treasures : Int)
  · rw [if_pos hw]
    exact h
  · rw [if_neg hw]
    exact h

theorem handle_left_click_unfold_some (m : GameModel) (x y : Int) (cell : Cell)
    (hc : m.cells (x, y) = some cell) :
    handle_left_click m x y =
      (if cell.state = STATE_CLICKED ∨ m.game_over = true then (m, none, none)
       else if cell.is_mine = true then
         ({ updateCellState m x y STATE_CLICKED with game_over := true },
           some Outcome.lost, none)
       else if cell.is_treasure = true then
         ({ updateCellState m x y STATE_CLICKED with game_over := true },
           some Outcome.wonTreasure, none)
       else win_check (clear_cell (m.SIZE_X * m.SIZE_Y + 1) m x y)) := by
  unfold handle_left_click
  rw [hc]

theorem handle_right_click_unfold_some (m : GameModel) (x y : Int) (cell : Cell)
    (hc : m.cells (x, y) = some cell) :
    handle_right_click m x y =
      (if cell.state = STATE_DEFAULT then
        ({ updateCellState m x y STATE_FLAGGED with
            flag_count := m.flag_count + 1,
            correct_flag_count :=
              if cell.is_mine = true then m.correct_flag_count + 1
              else m.correct_flag_count }, none)
       else if cell.state = STATE_FLAGGED then
        ({ updateCellState m x y STATE_DEFAULT with
            flag_count := m.flag_count - 1,
            correct_flag_count :=
              if cell.is_mine = true then m.correct_flag_count - 1
              else m.correct_flag_count }, none)
       else (m, none)) := by
  unfold handle_right_click
  rw [hc]
  rfl

theorem handle_left_preserves (m : GameModel) (x y : Int)
    (hI : Invars m) (hck : clickedOk m) :
    Invars (handle_left_click m x y).1 ∧ clickedOk (handle_left_click m x y).1 := by
  cases hc : m.cells (x, y) with
  | none =>
    have hm : (handle_left_click m x y).1 = m := by
      unfold handle_left_click
      rw [hc]
    rw [hm]
    exact ⟨hI, hck⟩
  | some cell =>
    rw [handle_left_click_unfold_some m x y cell hc]
    by_cases hg : cell.state = STATE_CLICKED ∨ m.game_over = true
    · rw [if_pos hg]
      exact ⟨hI, hck⟩
    · rw [if_neg hg]
      by_cases hmine : cell.is_mine = true
      · rw [if_pos hmine]
        have hs : safeRevealedCount (updateCellState m x y STATE_CLICKED)
            = safeRevealedCount m := by
          apply safeRevealedCount_update
          unfold isSafeRevealed
          rw [updateCellState_cells, if_pos rfl, hc]
          simp [hmine]
        constructor
        · exact updateCellState_invars m x y STATE_CLICKED hI
        · show m.clicked_count = safeRevealedCount (updateCellState m x y STATE_CLICKED)
          rw [hs]
          exact hck
      · rw [if_neg hmine]
        by_cases htr : cell.is_treasure = true
        · rw [if_pos htr]
          have hs : safeRevealedCount (updateCellState m x y STATE_CLICKED)
              = safeRevealedCount m := by
            apply safeRevealedCount_update
            unfold isSafeRevealed
            rw [updateCellState_cells, if_pos rfl, hc]
            simp [htr]
          constructor
          · exact updateCellState_invars m x y STATE_CLICKED hI
          · show m.clicked_count = safeRevealedCount (updateCellState m x y STATE_CLICKED)
            rw [hs]
            exact hck
        · rw [if_neg htr]
          have hmf : cell.is_mine = false := by
            cases h : cell.is_mine
            · rfl
            · exact absurd h hmine
          have hnm : noMineAt m x y := by
            intro c' hc'
            rw [hc] at hc'
            have := Option.some.inj hc'
            rw [← this]
            exact hmf
          have hrel := clear_cell_stepRel (m.SIZE_X * m.SIZE_Y + 1) m x y hI hnm
          have hI1 := stepRel_invars hI hrel
          have hck1 : clickedOk (clear_cell (m.SIZE_X * m.SIZE_Y + 1) m x y) := by
            unfold clickedOk at hck ⊢
            have := hrel.clicked
            omega
          exact ⟨win_check_invars _ hI1, win_check_clickedOk _ hck1⟩

theorem handle_right_preserves (m : GameModel) (x y : Int)
    (hI : Invars m) (hck : clickedOk m) :
    Invars (handle_right_click m x y).1 ∧ clickedOk (handle_right_click m x y).1 := by
  cases hc : m.cells (x, y) with
  | none =>
    have hm : (handle_right_click m x y).1 = m := by
      unfold handle_right_click
      rw [hc]
    rw [hm]
    exact ⟨hI, hck⟩
  | some cell =>
    rw [handle_right_click_unfold_some m x y cell hc]
    by_cases hd : cell.state = STATE_DEFAULT
    · rw [if_pos hd]
      have hs : safeRevealedCount (updateCellState m x y STATE_FLAGGED)
          = safeRevealedCount m := by
        apply safeRevealedCount_update
        unfold isSafeRevealed
        rw [updateCellState_cells, if_pos rfl, hc]
        simp [hd, STATE_DEFAULT, STATE_CLICKED, STATE_FLAGGED]
      constructor
      · exact updateCellState_invars m x y STATE_FLAGGED hI
      · show m.clicked_count = safeRevealedCount (updateCellState m x y STATE_FLAGGED)
        rw [hs]
        exact hck
    · rw [if_neg hd]
      by_cases hf : cell.state = STATE_FLAGGED
      · rw [if_pos hf]
        have hs : safeRevealedCount (updateCellState m x y STATE_DEFAULT)
            = safeRevealedCount m := by
          apply safeRevealedCount_update
          unfold isSafeRevealed
          rw [updateCellState_cells, if_pos rfl, hc]
          simp [hf, STATE_DEFAULT, STATE_CLICKED, STATE_FLAGGED]
        constructor
        · exact updateCellState_invars m x y STATE_DEFAULT hI
        · show m.clicked_count = safeRevealedCount (updateCellState m x y STATE_DEFAULT)
          rw [hs]
          exact hck
      · rw [if_neg hf]
        exact ⟨hI, hck⟩

/-- Every reachable state satisfies the board invariants and keeps
`clicked_count` equal to the number of revealed safe cells. -/
theorem reachable_invars {m : GameModel} (h : Reachable m) : Invars m ∧ clickedOk m := by
  induction h with
  | init file perm level hvalid => exact controller_init_invars file perm level hvalid
  | left m x y _ _ ih => exact handle_left_preserves m x y ih.1 ih.2
  | right m x y _ _ ih => exact handle_right_preserves m x y ih.1 ih.2

/-! ## `count_adjacent_mines` counts the in-bounds Moore neighborhood -/

theorem isMineB_none (m : GameModel) (p : Int × Int) (h : m.cells p = none) :
    isMineB m p = false := by
  unfold isMineB
  rw [h]

theorem isMineB_some (m : GameModel) (p : Int × Int) (c : Cell) (h : m.cells p = some c) :
    isMineB m p = c.is_mine := by
  unfold isMineB
  rw [h]

theorem neighbor_offsets_mem (x y : Int) (p : Int × Int) :
    p ∈ ([(x - 1, y), (x + 1, y), (x, y - 1), (x, y + 1),
          (x - 1, y - 1), (x - 1, y + 1), (x + 1, y - 1), (x + 1, y + 1)] :
          List (Int × Int))
      ↔ ((p.1 - x).natAbs ≤ 1 ∧ (p.2 - y).natAbs ≤ 1 ∧ p ≠ (x, y)) := by
  obtain ⟨a, b⟩ := p
  simp only [List.mem_cons, List.not_mem_nil, or_false, Prod.mk.injEq, ne_eq, not_and]
  omega

theorem neighbor_offsets_nodup (x y : Int) :
    ([(x - 1, y), (x + 1, y), (x, y - 1), (x, y + 1),
      (x - 1, y - 1), (x - 1, y + 1), (x + 1, y - 1), (x + 1, y + 1)] :
      List (Int × Int)).Nodup := by
  simp only [List.nodup_cons, List.mem_cons, List.not_mem_nil, or_false, List.nodup_nil,
    and_true, Prod.mk.injEq, not_or, not_and, not_false_eq_true]
  omega

theorem countP_filterMap_cells (m : GameModel) (l : List (Int × Int)) :
    (l.filterMap (fun p =>
        if 0 ≤ p.1 ∧ p.1 < (m.SIZE_X : Int) ∧ 0 ≤ p.2 ∧ p.2 < (m.SIZE_Y : Int) then
          m.cells p else none)).countP (fun n => n.is_mine)
      = (l.filter (fun p =>
          decide (0 ≤ p.1 ∧ p.1 < (m.SIZE_X : Int) ∧ 0 ≤ p.2 ∧ p.2 < (m.SIZE_Y : Int))
            && isMineB m p)).length := by
  induction l with
  | nil => rfl
  | cons a t ih =>
    rw [List.filterMap_cons, List.filter_cons]
    by_cases hb : 0 ≤ a.1 ∧ a.1 < (m.SIZE_X : Int) ∧ 0 ≤ a.2 ∧ a.2 < (m.SIZE_Y : Int)
    · rw [if_pos hb]
      cases hm : m.cells a with
      | none =>
        have hmb := isMineB_none m a hm
        simp [hb, hmb, ih]
      | some c =>
        have hmb := isMineB_some m a c hm
        cases hmine : c.is_mine
        · simp [List.countP_cons, hb, hmb, hmine, ih]
        · simp [List.countP_cons, hb, hmb, hmine, ih]
    · rw [if_neg hb]
      have hd : decide (0 ≤ a.1 ∧ a.1 < (m.SIZE_X : Int) ∧ 0 ≤ a.2 ∧
          a.2 < (m.SIZE_Y : Int)) = false := by simp [hb]
      simp [hd, ih]

theorem count_adjacent_eq_moore (m : GameModel) (x y : Int) :
    count_adjacent_mines m x y = mooreMineCount m x y := by
  rw [count_adjacent_eq_countP]
  unfold get_neighbors mooreMineCount
  rw [countP_filterMap_cells]
  apply filter_length_eq_of_mem_iff
  · exact neighbor_offsets_nodup x y
  · exact positionsList_nodup _ _
  · intro p
    simp only [List.mem_filter, Bool.and_eq_true, decide_eq_true_eq]
    rw [neighbor_offsets_mem, positionsList_mem]
    tauto

/-! ## Mine/treasure counts of generated boards -/

theorem built_SIZE_X (m : GameModel) (sx sy : Nat) (mineF treasF : Int × Int → Bool) :
    (compute_adjacency (place_cells m sx sy mineF treasF)).SIZE_X = m.SIZE_X := rfl

theorem built_SIZE_Y (m : GameModel) (sx sy : Nat) (mineF treasF : Int × Int → Bool) :
    (compute_adjacency (place_cells m sx sy mineF treasF)).SIZE_Y = m.SIZE_Y := rfl

theorem setup_board_eq (perm : List (Int × Int)) (m : GameModel) :
    setup_board perm m =
      compute_adjacency (place_cells m m.SIZE_X m.SIZE_Y
        (fun p => decide (p ∈ perm.take m.num_mines))
        (fun p => !decide (p ∈ perm.take m.num_mines) &&
          decide (p ∈ (perm.drop m.num_mines).take m.num_treasures))) := rfl

theorem setup_board_mineCount (perm : List (Int × Int)) (m : GameModel)
    (hperm : perm.Perm (positionsList m.SIZE_X m.SIZE_Y))
    (hle : m.num_mines ≤ m.SIZE_X * m.SIZE_Y) :
    mineCount (setup_board perm m) = m.num_mines := by
  have hpermnd : perm.Nodup := hperm.symm.nodup (positionsList_nodup _ _)
  have htknd : (perm.take m.num_mines).Nodup := hpermnd.sublist (List.take_sublist _ _)
  have hsub : ∀ a ∈ perm.take m.num_mines, a ∈ positionsList m.SIZE_X m.SIZE_Y :=
    fun a ha => hperm.mem_iff.mp (List.mem_of_mem_take ha)
  have hlen : (perm.take m.num_mines).length = m.num_mines := by
    rw [List.length_take]
    have h1 : perm.length = m.SIZE_X * m.SIZE_Y := by
      rw [hperm.length_eq, positionsList_length]
    omega
  unfold mineCount
  rw [setup_board_eq, built_SIZE_X, built_SIZE_Y]
  have hcongr : ∀ p ∈ positionsList m.SIZE_X m.SIZE_Y,
      isMineB (compute_adjacency (place_cells m m.SIZE_X m.SIZE_Y
        (fun q => decide (q ∈ perm.take m.num_mines))
        (fun q => !decide (q ∈ perm.take m.num_mines) &&
          decide (q ∈ (perm.drop m.num_mines).take m.num_treasures)))) p
      = decide (p ∈ perm.take m.num_mines) := by
    intro p hp
    rw [built_isMineB]
    have hb := (positionsList_mem _ _ p).mp hp
    simp [hb]
  rw [filter_congr_length _ _ _ hcongr]
  exact (filter_mem_length _ _ _ (fun a => by simp) (positionsList_nodup _ _)
    htknd hsub).trans hlen

theorem setup_board_treasureCount (perm : List (Int × Int)) (m : GameModel)
    (hperm : perm.Perm (positionsList m.SIZE_X m.SIZE_Y))
    (hle : m.num_mines + m.num_treasures ≤ m.SIZE_X * m.SIZE_Y) :
    treasureCount (setup_board perm m) = m.num_treasures := by
  have hpermnd : perm.Nodup := hperm.symm.nodup (positionsList_nodup _ _)
  have hdrnd : (perm.drop m.num_mines).Nodup := hpermnd.sublist (List.drop_sublist _ _)
  have htknd : ((perm.drop m.num_mines).take m.num_treasures).Nodup :=
    hdrnd.sublist (List.take_sublist _ _)
  have hdisj : List.Disjoint (perm.take m.num_mines) (perm.drop m.num_mines) :=
    List.disjoint_take_drop hpermnd (le_refl m.num_mines)
  have hsub : ∀ a ∈ (perm.drop m.num_mines).take m.num_treasures,
      a ∈ positionsList m.SIZE_X m.SIZE_Y := by
    intro a ha
    exact hperm.mem_iff.mp (List.mem_of_mem_drop (List.mem_of_mem_take ha))
  have hlen : ((perm.drop m.num_mines).take m.num_treasures).length = m.num_treasures := by
    rw [List.length_take, List.length_drop]
    have h1 : perm.length = m.SIZE_X * m.SIZE_Y := by
      rw [hperm.length_eq, positionsList_length]
    omega
  unfold treasureCount
  rw [setup_board_eq, built_SIZE_X, built_SIZE_Y]
  have hcongr : ∀ p ∈ positionsList m.SIZE_X m.SIZE_Y,
      isTreasureB (compute_adjacency (place_cells m m.SIZE_X m.SIZE_Y
        (fun q => decide (q ∈ perm.take m.num_mines))
        (fun q => !decide (q ∈ perm.take m.num_mines) &&
          decide (q ∈ (perm.drop m.num_mines).take m.num_treasures)))) p
      = decide (p ∈ (perm.drop m.num_mines).take m.num_treasures) := by
    intro p hp
    rw [built_isTreasureB]
    have hb := (positionsList_mem _ _ p).mp hp
    by_cases hpt : p ∈ (perm.drop m.num_mines).take m.num_treasures
    · have hdrop : p ∈ perm.drop m.num_mines := List.mem_of_mem_take hpt
      have hnm : p ∉ perm.take m.num_mines := fun hmem => hdisj hmem hdrop
      simp [hb, hpt, hnm]
    · simp [hb, hpt]
  rw [filter_congr_length _ _ _ hcongr]
  exact (filter_mem_length _ _ _ (fun a => by simp) (positionsList_nodup _ _)
    htknd hsub).trans hlen

theorem setup_board_exclusive (perm : List (Int × Int)) (m : GameModel) :
    ∀ p c, (setup_board perm m).cells p = some c →
      ¬(c.is_mine = true ∧ c.is_treasure = true) := by
  intro p c h hcontra
  rw [setup_board_eq] at h
  obtain ⟨hm, ht⟩ := built_flags _ _ _ _ _ p c h
  have h1 : decide (p ∈ perm.take m.num_mines) = true := by rw [← hm, hcontra.1]
  have h2 : (!decide (p ∈ perm.take m.num_mines) &&
      decide (p ∈ (perm.drop m.num_mines).take m.num_treasures)) = true := by
    rw [← ht, hcontra.2]
  rw [h1] at h2
  simp at h2

theorem setup_board_mineCount_trunc (perm : List (Int × Int)) (m : GameModel)
    (hperm : perm.Perm (positionsList m.SIZE_X m.SIZE_Y))
    (hge : m.SIZE_X * m.SIZE_Y ≤ m.num_mines) :
    mineCount (setup_board perm m) = m.SIZE_X * m.SIZE_Y := by
  have hlenp : perm.length = m.SIZE_X * m.SIZE_Y := by
    rw [hperm.length_eq, positionsList_length]
  have htake : perm.take m.num_mines = perm := List.take_of_length_le (by omega)
  unfold mineCount
  rw [setup_board_eq, built_SIZE_X, built_SIZE_Y]
  have hcongr : ∀ p ∈ positionsList m.SIZE_X m.SIZE_Y,
      isMineB (compute_adjacency (place_cells m m.SIZE_X m.SIZE_Y
        (fun q => decide (q ∈ perm.take m.num_mines))
        (fun q => !decide (q ∈ perm.take m.num_mines) &&
          decide (q ∈ (perm.drop m.num_mines).take m.num_treasures)))) p
      = true := by
    intro p hp
    rw [built_isMineB]
    have hb := (positionsList_mem _ _ p).mp hp
    have hmem : p ∈ perm.take m.num_mines := by
      rw [htake]
      exact hperm.mem_iff.mpr hp
    simp [hb, hmem]
  rw [filter_congr_length _ (fun _ => true) _ hcongr, List.filter_true,
    positionsList_length]

/-! ## Counting tokens of a board file -/

theorem filter_flatMap_eq {α β : Type} (l : List α) (g : α → List β) (p : β → Bool) :
    (l.flatMap g).filter p = l.flatMap (fun a => (g a).filter p) := by
  induction l with
  | nil => rfl
  | cons a t ih => rw [List.flatMap_cons, List.flatMap_cons, List.filter_append, ih]

theorem length_filter_flatMap {α β : Type} (l : List α) (g : α → List β) (p : β → Bool) :
    ((l.flatMap g).filter p).length = (l.map (fun a => ((g a).filter p).length)).sum := by
  rw [filter_flatMap_eq]
  exact List.length_flatMap ..

theorem filter_map_pair_length (x sy : Nat) (f : Int × Int → Bool) :
    (((List.range sy).map (fun y => (Int.ofNat x, Int.ofNat y))).filter f).length
      = ((List.range sy).filter (fun y => f (Int.ofNat x, Int.ofNat y))).length := by
  rw [List.filter_map, List.length_map]
  rfl

theorem range_filter_get {α : Type} (q : α → Bool) (d : α) :
    ∀ row : List α,
      ((List.range row.length).filter (fun c => q ((row.get? c).getD d))).length
        = (row.filter q).length
  | [] => rfl
  | a :: t => by
    have hlen : (a :: t).length = t.length + 1 := rfl
    rw [hlen, List.range_succ_eq_map, List.filter_cons, List.filter_cons]
    simp only [List.get?_cons_zero, Option.getD_some]
    have htail : (((List.range t.length).map Nat.succ).filter
        (fun c => q (((a :: t).get? c).getD d))).length
        = (t.filter q).length := by
      rw [List.filter_map, List.length_map]
      exact range_filter_get q d t
    by_cases hqa : q a = true
    · rw [if_pos hqa, if_pos hqa]
      simp only [List.length_cons]
      rw [htail]
    · rw [if_neg hqa, if_neg hqa]
      exact htail

theorem map_get_sum {α : Type} (g : α → Nat) (d : α) :
    ∀ l : List α,
      ((List.range l.length).map (fun i => g ((l.get? i).getD d))).sum = (l.map g).sum
  | [] => rfl
  | a :: t => by
    have hlen : (a :: t).length = t.length + 1 := rfl
    rw [hlen, List.range_succ_eq_map, List.map_cons, List.map_cons, List.sum_cons,
      List.sum_cons, List.map_map]
    simp only [List.get?_cons_zero, Option.getD_some]
    congr 1
    exact map_get_sum g d t

theorem rowsWellFormed_spec (rows : List (List Tok)) (h : rowsWellFormed rows = true) :
    rows.length = 8 ∧ ∀ r ∈ rows, r.length = 8 ∧ ∀ t ∈ r, (tokClass t).isSome = true := by
  unfold rowsWellFormed at h
  simp only [Bool.and_eq_true, beq_iff_eq, List.all_eq_true] at h
  obtain ⟨h1, h2⟩ := h
  refine ⟨h1, fun r hr => ?_⟩
  have := h2 r hr
  simpa [Bool.and_eq_true, beq_iff_eq, List.all_eq_true] using this

theorem file_filter_count (rows : List (List Tok)) (v : Int)
    (hlen : rows.length = 8) (hrows : ∀ r ∈ rows, r.length = 8) :
    ((positionsList 8 8).filter
      (fun p => decide (tokAt rows p.1.toNat p.2.toNat = some v))).length
      = countTok rows v := by
  unfold positionsList
  rw [length_filter_flatMap]
  have hinner : ∀ x ∈ List.range 8,
      ((((List.range 8).map (fun y => (Int.ofNat x, Int.ofNat y))).filter
        (fun p => decide (tokAt rows p.1.toNat p.2.toNat = some v))).length)
      = (((rows.get? x).getD []).filter (fun t => decide (t = some v))).length := by
    intro x hx
    rw [filter_map_pair_length]
    have hx8 : x < rows.length := by
      rw [hlen]
      exact List.mem_range.mp hx
    have hrl : ((rows.get? x).getD []).length = 8 := by
      rw [List.get?_eq_get hx8, Option.getD_some]
      exact hrows _ (List.get_mem rows x hx8)
    rw [← hrl]
    exact range_filter_get (fun t => decide (t = some v)) none ((rows.get? x).getD [])
  rw [List.map_congr_left hinner]
  unfold countTok
  rw [← hlen]
  rw [map_get_sum (fun r => (r.filter (fun t => decide (t = some v))).length)
    ([] : List Tok) rows]
  congr 1
  apply List.map_congr_left
  intro r _
  exact (List.countP_eq_length_filter ..).symm

theorem built_file_mineCount (b : GameModel) (rows : List (List Tok))
    (hlen : rows.length = 8) (hrows : ∀ r ∈ rows, r.length = 8)
    (hbx : b.SIZE_X = 8) (hby : b.SIZE_Y = 8) :
    mineCount (compute_adjacency (place_cells b 8 8
      (fun p => decide (tokAt rows p.1.toNat p.2.toNat = some 1))
      (fun p => decide (tokAt rows p.1.toNat p.2.toNat = some 2)))) = countTok rows 1 := by
  unfold mineCount
  rw [built_SIZE_X, built_SIZE_Y, hbx, hby]
  have hcongr : ∀ p ∈ positionsList 8 8,
      isMineB (compute_adjacency (place_cells b 8 8
        (fun p => decide (tokAt rows p.1.toNat p.2.toNat = some 1))
        (fun p => decide (tokAt rows p.1.toNat p.2.toNat = some 2)))) p
      = decide (tokAt rows p.1.toNat p.2.toNat = some 1) := by
    intro p hp
    rw [built_isMineB]
    have hb := (positionsList_mem _ _ p).mp hp
    simp [hb]
    intro _
    omega
  rw [filter_congr_length _ _ _ hcongr]
  exact file_filter_count rows 1 hlen hrows

theorem built_file_treasureCount (b : GameModel) (rows : List (List Tok))
    (hlen : rows.length = 8) (hrows : ∀ r ∈ rows, r.length = 8)
    (hbx : b.SIZE_X = 8) (hby : b.SIZE_Y = 8) :
    treasureCount (compute_adjacency (place_cells b 8 8
      (fun p => decide (tokAt rows p.1.toNat p.2.toNat = some 1))
      (fun p => decide (tokAt rows p.1.toNat p.2.toNat = some 2)))) = countTok rows 2 := by
  unfold treasureCount
  rw [built_SIZE_X, built_SIZE_Y, hbx, hby]
  have hcongr : ∀ p ∈ positionsList 8 8,
      isTreasureB (compute_adjacency (place_cells b 8 8
        (fun p => decide (tokAt rows p.1.toNat p.2.toNat = some 1))
        (fun p => decide (tokAt rows p.1.toNat p.2.toNat = some 2)))) p
      = decide (tokAt rows p.1.toNat p.2.toNat = some 2) := by
    intro p hp
    rw [built_isTreasureB]
    have hb := (positionsList_mem _ _ p).mp hp
    simp [hb]
    intro _
    omega
  rw [filter_congr_length _ _ _ hcongr]
  exact file_filter_count rows 2 hlen hrows

theorem file_board_counts (rows : List (List Tok)) (perm : List (Int × Int))
    (m : GameModel) (hwf : rowsWellFormed rows = true)
    (h8x : m.SIZE_X = 8) (h8y : m.SIZE_Y = 8) :
    mineCount (setup_board_from_file (some rows) perm m) = countTok rows 1 ∧
    treasureCount (setup_board_from_file (some rows) perm m) = countTok rows 2 ∧
    (setup_board_from_file (some rows) perm m).mines = countTok rows 1 ∧
    (setup_board_from_file (some rows) perm m).treasures = countTok rows 2 := by
  rw [setup_board_from_file_success rows perm m hwf]
  obtain ⟨hlen, hrows⟩ := rowsWellFormed_spec rows hwf
  have hrows2 : ∀ r ∈ rows, r.length = 8 := fun r hr => (hrows r hr).1
  exact ⟨built_file_mineCount _ rows hlen hrows2 h8x h8y,
    built_file_treasureCount _ rows hlen hrows2 h8x h8y, rfl, rfl⟩

theorem file_board_exclusive (rows : List (List Tok)) (perm : List (Int × Int))
    (m : GameModel)
    (hbase : ∀ p c, m.cells p = some c → ¬(c.is_mine = true ∧ c.is_treasure = true)) :
    ∀ p c, (setup_board_from_file (some rows) perm m).cells p = some c →
      ¬(c.is_mine = true ∧ c.is_treasure = true) := by
  intro p c h hcontra
  by_cases hlen : rows.length = 8
  · cases hscan : scanRows 0 rows with
    | some fp =>
      rw [setup_board_from_file_midfail rows perm m fp hlen hscan] at h
      have h2 : leftoverCells rows fp p = some c := h
      unfold leftoverCells at h2
      by_cases hP : 0 ≤ p.1 ∧ 0 ≤ p.2 ∧ insertedBefore fp p.1.toNat p.2.toNat = true
      · rw [if_pos hP] at h2
        have hc := Option.some.inj h2
        have h1t : tokAt rows p.1.toNat p.2.toNat = some 1 := by
          have hcm := hcontra.1
          rw [← hc] at hcm
          exact of_decide_eq_true hcm
        have h2t : tokAt rows p.1.toNat p.2.toNat = some 2 := by
          have hct := hcontra.2
          rw [← hc] at hct
          exact of_decide_eq_true hct
        rw [h1t] at h2t
        cases h2t
      · rw [if_neg hP] at h2
        cases h2
    | none =>
      have hwf : rowsWellFormed rows = true :=
        (rowsWellFormed_iff rows).mpr ⟨hlen, hscan⟩
      rw [setup_board_from_file_success rows perm m hwf] at h
      obtain ⟨hm, ht⟩ := built_flags _ _ _ _ _ p c h
      have h1 : tokAt rows p.1.toNat p.2.toNat = some 1 := by
        have hcm := hcontra.1
        rw [hm] at hcm
        exact of_decide_eq_true hcm
      have h2 : tokAt rows p.1.toNat p.2.toNat = some 2 := by
        have hct := hcontra.2
        rw [ht] at hct
        exact of_decide_eq_true hct
      rw [h1] at h2
      cases h2
  · rw [setup_board_from_file_badlen rows perm m hlen] at h
    exact hbase p c h hcontra

/-! ## Concrete boards used in witnesses and counterexamples -/

/-- Beginner board generated with the identity shuffle: mines on the whole
first row plus `(1,0)`, `(1,1)`; the single treasure at `(1,2)`. -/
def mInit : GameModel := controller_init none (positionsList 8 8) LevelName.beginner

/-- `mInit` after the mine at `(0, 0)` is revealed: a finished (lost) game. -/
def mOver : GameModel := (handle_left_click mInit 0 0).1

/-- `mInit` after the mine at `(0, 0)` is flagged. -/
def mFlagMine : GameModel := (handle_right_click mInit 0 0).1

/-- `mInit` after the empty cell `(7, 7)` is flagged. -/
def mFlagEmpty : GameModel := (handle_right_click mInit 7 7).1

/-- An 8×8 matrix of mine tokens only. -/
def allOnes : List (List Tok) := List.replicate 8 (List.replicate 8 (some 1))

/-- The model built from the all-mines file (accepted by validation). -/
def mAllMines : GameModel :=
  controller_init (some (some allOnes)) (positionsList 8 8) LevelName.beginner

/-- An 8-row file whose second row has only 7 columns: the loop fully
processes row 0 — a mine at `(0, 0)` followed by empties — then hits the
column-count failure at row 1 and returns, so only row 0's cells are in the
dict and the adjacency pass never runs. -/
def badRows : List (List Tok) :=
  [some 1, some 0, some 0, some 0, some 0, some 0, some 0, some 0] ::
    List.replicate 7 (some 0) :: List.replicate 6 (List.replicate 8 (some 0))

/-- The model `badRows` leaves behind: `invalid_board = true`, the eight cells
of row 0 still hidden with stale `adjacent_mines = 0`, and no fallback
board. -/
def mStale : GameModel :=
  controller_init (some (some badRows)) (positionsList 8 8) LevelName.beginner

/-- A file with only 7 rows: the row-count check fails before the loop, so
nothing at all is inserted. -/
def rows7 : List (List Tok) := List.replicate 7 (List.replicate 8 (some 0))

/-- A 1×1 board with a single hidden empty cell, one reveal from winning. -/
def mOneCell : GameModel :=
  { SIZE_X := 1, SIZE_Y := 1, num_mines := 0, num_treasures := 0,
    flag_count := 0, correct_flag_count := 0, clicked_count := 0,
    cells := fun p => if p = (0, 0) then
      some { x := 0, y := 0, is_mine := false, is_treasure := false,
             state := STATE_DEFAULT, adjacent_mines := 0 } else none,
    mines := 0, treasures := 0, game_over := false, invalid_board := false }

/-- A degenerate model requesting 100 mines on a 2×2 board. -/
def mTrunc : GameModel :=
  { SIZE_X := 2, SIZE_Y := 2, num_mines := 100, num_treasures := 0,
    flag_count := 0, correct_flag_count := 0, clicked_count := 0,
    cells := fun _ => none, mines := 100, treasures := 0,
    game_over := false, invalid_board := false }

/-! ## Claim theorems -/

/-- C1: on every reachable game state, a reveal on an empty (non-mine,
non-treasure) cell — the only branch that runs the recursive `clear_cell`
expansion — leaves every mine cell and every treasure cell entirely unchanged,
reveal state included.  In particular a treasure next to a zero-adjacency cell
stays unrevealed. -/
theorem C1_flood_reveal_spares_mines_and_treasures (m : GameModel) (x y : Int)
    (c : Cell) (hr : Reachable m) (hc : m.cells (x, y) = some c)
    (hm : c.is_mine = false) (ht : c.is_treasure = false)
    (p : Int × Int) (d : Cell) (hd : m.cells p = some d)
    (hmd : d.is_mine = true ∨ d.is_treasure = true) :
    (handle_left_click m x y).1.cells p = some d := by
  obtain ⟨hI, _⟩ := reachable_invars hr
  rw [handle_left_click_unfold_some m x y c hc]
  by_cases hg : c.state = STATE_CLICKED ∨ m.game_over = true
  · rw [if_pos hg]
    exact hd
  · rw [if_neg hg, if_neg (by simp [hm]), if_neg (by simp [ht])]
    have hnm : noMineAt m x y := by
      intro c' hc'
      rw [hc] at hc'
      rw [← Option.some.inj hc']
      exact hm
    have hrel := clear_cell_stepRel (m.SIZE_X * m.SIZE_Y + 1) m x y hI hnm
    obtain ⟨c2, hc2, hstep⟩ := hrel.cells_some p d hd
    have hc2d : c2 = d := by
      rcases hstep with rfl | ⟨_, htr0, hm0, _⟩
      · rfl
      · rcases hmd with h | h
        · rw [hm0] at h; cases h
        · rw [htr0] at h; cases h
    unfold win_check
    by_cases hw : (((clear_cell (m.SIZE_X * m.SIZE_Y + 1) m x y).clicked_count : Int) =
        ((clear_cell (m.SIZE_X * m.SIZE_Y + 1) m x y).SIZE_X : Int) *
          ((clear_cell (m.SIZE_X * m.SIZE_Y + 1) m x y).SIZE_Y : Int) -
          ((clear_cell (m.SIZE_X * m.SIZE_Y + 1) m x y).mines : Int) -
          ((clear_cell (m.SIZE_X * m.SIZE_Y + 1) m x y).treasures : Int))
    · rw [if_pos hw]
      show (clear_cell (m.SIZE_X * m.SIZE_Y + 1) m x y).cells p = some d
      rw [hc2, hc2d]
    · rw [if_neg hw]
      show (clear_cell (m.SIZE_X * m.SIZE_Y + 1) m x y).cells p = some d
      rw [hc2, hc2d]

theorem C1_witness :
    (handle_left_click mInit 2 0).1.cells (1, 2) =
      some { x := 1, y := 2, is_mine := false, is_treasure := true,
             state := STATE_DEFAULT, adjacent_mines := 4 } :=
  C1_flood_reveal_spares_mines_and_treasures mInit 2 0
    { x := 2, y := 0, is_mine := false, is_treasure := false,
      state := STATE_DEFAULT, adjacent_mines := 2 }
    (Reachable.init none (positionsList 8 8) LevelName.beginner rfl)
    (by decide) (by decide) (by decide) (1, 2)
    { x := 1, y := 2, is_mine := false, is_treasure := true,
      state := STATE_DEFAULT, adjacent_mines := 4 }
    (by decide) (Or.inr (by decide))

/-- C2: a reveal that actually proceeds on an empty (non-mine, non-treasure)
cell ends the game with the plain-win outcome (`game_over` set, `wonPlain`
reported) exactly when the resulting `clicked_count` equals
`SIZE_X*SIZE_Y - mines - treasures` — and never earlier. -/
theorem C2_plain_win_iff_all_safe_revealed (m : GameModel) (x y : Int) (c : Cell)
    (hc : m.cells (x, y) = some c) (hm : c.is_mine = false) (ht : c.is_treasure = false)
    (hst : c.state ≠ STATE_CLICKED) (hov : m.game_over = false) :
    ((handle_left_click m x y).2.1 = some Outcome.wonPlain ∧
        (handle_left_click m x y).1.game_over = true)
      ↔ ((handle_left_click m x y).1.clicked_count : Int) =
          ((handle_left_click m x y).1.SIZE_X : Int) *
            ((handle_left_click m x y).1.SIZE_Y : Int) -
            ((handle_left_click m x y).1.mines : Int) -
            ((handle_left_click m x y).1.treasures : Int) := by
  rw [handle_left_click_unfold_some m x y c hc]
  rw [if_neg (by simp [hst, hov]), if_neg (by simp [hm]), if_neg (by simp [ht])]
  unfold win_check
  by_cases hw : (((clear_cell (m.SIZE_X * m.SIZE_Y + 1) m x y).clicked_count : Int) =
      ((clear_cell (m.SIZE_X * m.SIZE_Y + 1) m x y).SIZE_X : Int) *
        ((clear_cell (m.SIZE_X * m.SIZE_Y + 1) m x y).SIZE_Y : Int) -
        ((clear_cell (m.SIZE_X * m.SIZE_Y + 1) m x y).mines : Int) -
        ((clear_cell (m.SIZE_X * m.SIZE_Y + 1) m x y).treasures : Int))
  · rw [if_pos hw]
    constructor
    · intro _
      exact hw
    · intro _
      exact ⟨rfl, rfl⟩
  · rw [if_neg hw]
    constructor
    · rintro ⟨habs, _⟩
      exact absurd habs (by simp)
    · intro hcount
      exact absurd hcount hw

theorem C2_witness :
    ((handle_left_click mOneCell 0 0).2.1 = some Outcome.wonPlain ∧
        (handle_left_click mOneCell 0 0).1.game_over = true)
      ↔ ((handle_left_click mOneCell 0 0).1.clicked_count : Int) =
          ((handle_left_click mOneCell 0 0).1.SIZE_X : Int) *
            ((handle_left_click mOneCell 0 0).1.SIZE_Y : Int) -
            ((handle_left_click mOneCell 0 0).1.mines : Int) -
            ((handle_left_click mOneCell 0 0).1.treasures : Int) :=
  C2_plain_win_iff_all_safe_revealed mOneCell 0 0
    { x := 0, y := 0, is_mine := false, is_treasure := false,
      state := STATE_DEFAULT, adjacent_mines := 0 }
    (by decide) (by decide) (by decide) (by decide) (by decide)

/-- C3 counterexample: the claim quantifies over every board produced by
construction, but a file whose second row has 7 columns is processed up to
that row and then abandoned by an early `return`: the board built from
`badRows` stores cell `(0, 1)` with the constructor's stale
`adjacent_mines = 0` although its Moore neighbor `(0, 0)` is a stored mine
(Moore count 1) — the adjacency pass never ran on this path. -/
theorem C3_counterexample :
    mStale.invalid_board = true ∧
    (mStale.cells (0, 0)).map Cell.is_mine = some true ∧
    (mStale.cells (0, 1)).map Cell.adjacent_mines = some 0 ∧
    mooreMineCount mStale 0 1 = 1 ∧
    (mStale.cells (0, 1)).map Cell.adjacent_mines
      ≠ some (mooreMineCount mStale 0 1) := by
  decide

/-- C3 amended: every stored cell's `adjacent_mines` equals the number of
mines among its in-bounds 8-connected Moore neighbors on every board the
controller lets into play — any construction with `invalid_board = false`,
i.e. random generation and fully valid files — and also on the random
fallback board built after a missing/unreadable file (marked invalid but
regenerated by `setup_board`).  The only exception is the board a
content-invalid file leaves behind: its cells keep the stale
`adjacent_mines = 0` from the `Cell` constructor, and the controller discards
it by restarting. -/
theorem C3_amended_adjacency_on_played_boards :
    (∀ (file : Option (Option (List (List Tok)))) (perm : List (Int × Int))
        (level : LevelName) (x y : Int) (c : Cell),
      (controller_init file perm level).invalid_board = false →
      (controller_init file perm level).cells (x, y) = some c →
      c.adjacent_mines = mooreMineCount (controller_init file perm level) x y) ∧
    (∀ (perm : List (Int × Int)) (level : LevelName) (x y : Int) (c : Cell),
      (controller_init (some none) perm level).cells (x, y) = some c →
      c.adjacent_mines = mooreMineCount (controller_init (some none) perm level) x y) := by
  constructor
  · intro file perm level x y c hvalid hc
    obtain ⟨⟨_, _, hadj⟩, _⟩ := controller_init_invars file perm level hvalid
    exact (hadj (x, y) c hc).trans (count_adjacent_eq_moore _ x y)
  · intro perm level x y c hc
    obtain ⟨_, _, hadj⟩ :=
      setup_board_invars perm { m0beginner with invalid_board := true }
    exact (hadj (x, y) c hc).trans (count_adjacent_eq_moore _ x y)

theorem C3_amended_witness :
    ({ x := 0, y := 0, is_mine := true, is_treasure := false,
       state := STATE_DEFAULT, adjacent_mines := 3 } : Cell).adjacent_mines
      = mooreMineCount mInit 0 0 :=
  C3_amended_adjacency_on_played_boards.1 none (positionsList 8 8)
    LevelName.beginner 0 0
    { x := 0, y := 0, is_mine := true, is_treasure := false,
      state := STATE_DEFAULT, adjacent_mines := 3 }
    rfl (by decide)

/-- C10: at every state reachable from a freshly constructed model by
in-bounds clicks, `clicked_count` equals the number of cells that are revealed
and neither mines nor treasures. -/
theorem C10_clicked_count_tracks_safe_revealed (m : GameModel) (h : Reachable m) :
    m.clicked_count = safeRevealedCount m :=
  (reachable_invars h).2

theorem C10_witness :
    (handle_left_click mInit 2 0).1.clicked_count
      = safeRevealedCount (handle_left_click mInit 2 0).1 :=
  C10_clicked_count_tracks_safe_revealed (handle_left_click mInit 2 0).1
    (Reachable.left mInit 2 0
      (Reachable.init none (positionsList 8 8) LevelName.beginner rfl) (by decide))

/-- `clear_cell` returns the state unchanged when the target cell is not
hidden (or is a treasure). -/
theorem clear_cell_guard (fuel : Nat) (m : GameModel) (x y : Int) (cell : Cell)
    (hc : m.cells (x, y) = some cell)
    (hg : cell.state ≠ STATE_DEFAULT ∨ cell.is_treasure = true) :
    clear_cell fuel m x y = m := by
  cases fuel with
  | zero => rfl
  | succ fuel =>
    rw [clear_cell, hc]
    exact if_pos hg

/-- C4 counterexample: after the game is over (a mine was revealed), a right
click still mutates the flag counter, so "any subsequent toggle-flag call
leaves the entire game state unchanged" is false at this reachable state. -/
theorem C4_counterexample :
    mOver.game_over = true ∧
    (handle_right_click mOver 7 7).1.flag_count ≠ mOver.flag_count := by
  decide

/-- C4 amended: once `game_over` is true, a reveal call is a no-op (state
unchanged, no outcome reported) — but `handle_right_click` never consults
`game_over`: on a hidden cell it still flags the cell and increments
`flag_count` exactly as in a live game. -/
theorem C4_amended_left_noop_right_unguarded (m : GameModel) (x y : Int) (c : Cell)
    (hover : m.game_over = true) :
    ((handle_left_click m x y).1 = m ∧ (handle_left_click m x y).2.1 = none) ∧
    (m.cells (x, y) = some c → c.state = STATE_DEFAULT →
      (handle_right_click m x y).1.cells (x, y) =
          some { c with state := STATE_FLAGGED } ∧
        (handle_right_click m x y).1.flag_count = m.flag_count + 1) := by
  constructor
  · cases hc : m.cells (x, y) with
    | none =>
      unfold handle_left_click
      rw [hc]
      exact ⟨rfl, rfl⟩
    | some cell =>
      rw [handle_left_click_unfold_some m x y cell hc, if_pos (Or.inr hover)]
      exact ⟨rfl, rfl⟩
  · intro hc hd
    rw [handle_right_click_unfold_some m x y c hc, if_pos hd]
    constructor
    · show (updateCellState m x y STATE_FLAGGED).cells (x, y)
        = some { c with state := STATE_FLAGGED }
      rw [updateCellState_cells, if_pos rfl, hc]
      rfl
    · rfl

theorem C4_amended_witness :
    ((handle_left_click mOver 7 7).1 = mOver ∧
      (handle_left_click mOver 7 7).2.1 = none) ∧
    (handle_right_click mOver 7 7).1.flag_count = mOver.flag_count + 1 :=
  ⟨(C4_amended_left_noop_right_unguarded mOver 7 7
      { x := 7, y := 7, is_mine := false, is_treasure := false,
        state := STATE_DEFAULT, adjacent_mines := 0 } (by decide)).1,
   ((C4_amended_left_noop_right_unguarded mOver 7 7
      { x := 7, y := 7, is_mine := false, is_treasure := false,
        state := STATE_DEFAULT, adjacent_mines := 0 } (by decide)).2
      (by decide) (by decide)).2⟩

/-- C5 counterexample: a flagged mine is not protected — left-clicking the
flagged mine at `(0, 0)` reveals it and loses the game, so "a flagged cell
cannot be revealed until it is unflagged, regardless of whether the cell is a
mine, a treasure, or empty" is false at this reachable state. -/
theorem C5_counterexample :
    mFlagMine.cells (0, 0) =
      some { x := 0, y := 0, is_mine := true, is_treasure := false,
             state := STATE_FLAGGED, adjacent_mines := 3 } ∧
    mFlagMine.game_over = false ∧
    (handle_left_click mFlagMine 0 0).1.cells (0, 0) =
      some { x := 0, y := 0, is_mine := true, is_treasure := false,
             state := STATE_CLICKED, adjacent_mines := 3 } ∧
    (handle_left_click mFlagMine 0 0).2.1 = some Outcome.lost ∧
    (handle_left_click mFlagMine 0 0).1.game_over = true := by
  decide

/-- C5 amended: a reveal on a flagged empty (non-mine, non-treasure) cell is
rejected — no cell changes and no counter moves (only the flag/mine/treasure
guard in `clear_cell` fires).  But the guard in `handle_left_click` only
blocks `STATE_CLICKED`, so a flagged mine is revealed and loses, and a flagged
treasure is revealed and wins with the treasure outcome. -/
theorem C5_amended_flagged_reveal (m : GameModel) (x y : Int) (c : Cell)
    (hc : m.cells (x, y) = some c) (hf : c.state = STATE_FLAGGED) :
    (c.is_mine = false → c.is_treasure = false →
      (∀ p, (handle_left_click m x y).1.cells p = m.cells p) ∧
      (handle_left_click m x y).1.clicked_count = m.clicked_count ∧
      (handle_left_click m x y).1.flag_count = m.flag_count ∧
      (handle_left_click m x y).1.correct_flag_count = m.correct_flag_count) ∧
    (m.game_over = false → c.is_mine = true →
      (handle_left_click m x y).1.cells (x, y) = some { c with state := STATE_CLICKED } ∧
      (handle_left_click m x y).2.1 = some Outcome.lost ∧
      (handle_left_click m x y).1.game_over = true) ∧
    (m.game_over = false → c.is_mine = false → c.is_treasure = true →
      (handle_left_click m x y).1.cells (x, y) = some { c with state := STATE_CLICKED } ∧
      (handle_left_click m x y).2.1 = some Outcome.wonTreasure ∧
      (handle_left_click m x y).1.game_over = true) := by
  refine ⟨?_, ?_, ?_⟩
  · intro hm ht
    rw [handle_left_click_unfold_some m x y c hc]
    by_cases hg : c.state = STATE_CLICKED ∨ m.game_over = true
    · rw [if_pos hg]
      exact ⟨fun p => rfl, rfl, rfl, rfl⟩
    · rw [if_neg hg, if_neg (by simp [hm]), if_neg (by simp [ht])]
      have hclear : clear_cell (m.SIZE_X * m.SIZE_Y + 1) m x y = m :=
        clear_cell_guard _ m x y c hc
          (Or.inl (by rw [hf]; simp [STATE_FLAGGED, STATE_DEFAULT]))
      rw [hclear]
      unfold win_check
      by_cases hw : ((m.clicked_count : Int) =
          (m.SIZE_X : Int) * (m.SIZE_Y : Int) - (m.mines : Int) - (m.treasures : Int))
      · rw [if_pos hw]
        exact ⟨fun p => rfl, rfl, rfl, rfl⟩
      · rw [if_neg hw]
        exact ⟨fun p => rfl, rfl, rfl, rfl⟩
  · intro hov hmine
    rw [handle_left_click_unfold_some m x y c hc]
    rw [if_neg (by simp [hf, hov, STATE_FLAGGED, STATE_CLICKED]), if_pos hmine]
    refine ⟨?_, rfl, rfl⟩
    show (updateCellState m x y STATE_CLICKED).cells (x, y)
      = some { c with state := STATE_CLICKED }
    rw [updateCellState_cells, if_pos rfl, hc]
    rfl
  · intro hov hmine htr
    rw [handle_left_click_unfold_some m x y c hc]
    rw [if_neg (by simp [hf, hov, STATE_FLAGGED, STATE_CLICKED]),
      if_neg (by simp [hmine]), if_pos htr]
    refine ⟨?_, rfl, rfl⟩
    show (updateCellState m x y STATE_CLICKED).cells (x, y)
      = some { c with state := STATE_CLICKED }
    rw [updateCellState_cells, if_pos rfl, hc]
    rfl

theorem C5_amended_witness :
    ((handle_left_click mFlagEmpty 7 7).1.cells (7, 7) = mFlagEmpty.cells (7, 7) ∧
      (handle_left_click mFlagEmpty 7 7).1.clicked_count = mFlagEmpty.clicked_count) ∧
    (handle_left_click mFlagMine 0 0).2.1 = some Outcome.lost :=
  ⟨⟨((C5_amended_flagged_reveal mFlagEmpty 7 7
        { x := 7, y := 7, is_mine := false, is_treasure := false,
          state := STATE_FLAGGED, adjacent_mines := 0 }
        (by decide) (by decide)).1 (by decide) (by decide)).1 (7, 7),
    ((C5_amended_flagged_reveal mFlagEmpty 7 7
        { x := 7, y := 7, is_mine := false, is_treasure := false,
          state := STATE_FLAGGED, adjacent_mines := 0 }
        (by decide) (by decide)).1 (by decide) (by decide)).2.1⟩,
   ((C5_amended_flagged_reveal mFlagMine 0 0
        { x := 0, y := 0, is_mine := true, is_treasure := false,
          state := STATE_FLAGGED, adjacent_mines := 3 }
        (by decide) (by decide)).2.1 (by decide) (by decide)).2.1⟩

/-- C6 counterexample: at the out-of-bounds coordinates `(8, 0)` the handlers
raise the dict lookup's `KeyError` — they do not report the specification's
boundary error. -/
theorem C6_counterexample :
    ¬ inBoundsP mInit 8 0 ∧
    handle_left_click mInit 8 0 = (mInit, none, some PyErr.keyError) ∧
    handle_right_click mInit 8 0 = (mInit, some PyErr.keyError) ∧
    PyErr.keyError ≠ PyErr.boundary :=
  ⟨by decide, rfl, rfl, by decide⟩

/-- C6 amended: out-of-bounds coordinates make `self.model.cells[(x, y)]` —
the first statement of both handlers — raise `KeyError` before any mutation:
the state is returned unchanged, but the failure is an uncaught exception, not
a reported boundary error. -/
theorem C6_amended_oob_keyerror_state_unchanged (m : GameModel) (x y : Int)
    (hdom : domainOk m) (hob : ¬ inBoundsP m x y) :
    handle_left_click m x y = (m, none, some PyErr.keyError) ∧
    handle_right_click m x y = (m, some PyErr.keyError) := by
  have hnone : m.cells (x, y) = none := by
    cases hc : m.cells (x, y) with
    | none => rfl
    | some c => exact absurd ((hdom x y).mp (by rw [hc]; rfl)) hob
  constructor
  · unfold handle_left_click
    rw [hnone]
  · unfold handle_right_click
    rw [hnone]

theorem C6_amended_witness :
    handle_left_click mInit 8 0 = (mInit, none, some PyErr.keyError) ∧
    handle_right_click mInit 8 0 = (mInit, some PyErr.keyError) :=
  C6_amended_oob_keyerror_state_unchanged mInit 8 0
    (controller_init_invars none (positionsList 8 8) LevelName.beginner rfl).1.1
    (by decide)

/-- C7: random generation with a permutation shuffle places exactly
`num_mines` mines and `num_treasures` treasures whenever
`num_mines + num_treasures ≤ SIZE_X*SIZE_Y`; successful file-driven generation
has exactly the counts derived from the matrix, which are also stored in
`mines`/`treasures`; and on every constructed board no cell is both a mine and
a treasure. -/
theorem C7_generation_counts :
    (∀ (m0 : GameModel) (perm : List (Int × Int)),
        perm.Perm (positionsList m0.SIZE_X m0.SIZE_Y) →
        m0.num_mines + m0.num_treasures ≤ m0.SIZE_X * m0.SIZE_Y →
        mineCount (setup_board perm m0) = m0.num_mines ∧
          treasureCount (setup_board perm m0) = m0.num_treasures) ∧
    (∀ (rows : List (List Tok)) (perm : List (Int × Int)) (level : LevelName),
        rowsWellFormed rows = true →
        mineCount (controller_init (some (some rows)) perm level) = countTok rows 1 ∧
        treasureCount (controller_init (some (some rows)) perm level) = countTok rows 2 ∧
        (controller_init (some (some rows)) perm level).mines = countTok rows 1 ∧
        (controller_init (some (some rows)) perm level).treasures = countTok rows 2) ∧
    (∀ (file : Option (Option (List (List Tok)))) (perm : List (Int × Int))
        (level : LevelName) (p : Int × Int) (c : Cell),
        (controller_init file perm level).cells p = some c →
        ¬(c.is_mine = true ∧ c.is_treasure = true)) := by
  refine ⟨?_, ?_, ?_⟩
  · intro m0 perm hperm hle
    exact ⟨setup_board_mineCount perm m0 hperm (by omega),
      setup_board_treasureCount perm m0 hperm hle⟩
  · intro rows perm level hwf
    exact file_board_counts rows perm m0beginner hwf rfl rfl
  · intro file perm level p c hc
    cases file with
    | none => exact setup_board_exclusive perm _ p c hc
    | some rows? =>
      cases rows? with
      | none => exact setup_board_exclusive perm _ p c hc
      | some rows =>
        refine file_board_exclusive rows perm m0beginner ?_ p c hc
        intro q d hq
        simp [m0beginner] at hq

theorem C7_witness :
    mineCount mInit = 10 ∧ treasureCount mInit = 1 ∧
    mineCount mAllMines = countTok allOnes 1 ∧
    mAllMines.treasures = countTok allOnes 2 :=
  ⟨(C7_generation_counts.1 m0beginner (positionsList 8 8)
      (List.Perm.refl _) (by decide)).1,
   (C7_generation_counts.1 m0beginner (positionsList 8 8)
      (List.Perm.refl _) (by decide)).2,
   (C7_generation_counts.2.1 allOnes (positionsList 8 8) LevelName.beginner
      (by decide)).1,
   (C7_generation_counts.2.1 allOnes (positionsList 8 8) LevelName.beginner
      (by decide)).2.2.2⟩

/-- C8 counterexample: the claim says every malformed input falls back to
random generation and produces a valid board, but a file with 7 rows takes the
early `return` at the row-count check, which bypasses the method-level
fallback block: the model is marked invalid and its cell dictionary is
completely empty — no random board (let alone a valid one) is generated. -/
theorem C8_counterexample :
    (controller_init (some (some rows7)) (positionsList 8 8)
        LevelName.beginner).invalid_board = true ∧
    (controller_init (some (some rows7)) (positionsList 8 8)
        LevelName.beginner).cells (0, 0) = none ∧
    mineCount (controller_init (some (some rows7)) (positionsList 8 8)
        LevelName.beginner) = 0 ∧
    treasureCount (controller_init (some (some rows7)) (positionsList 8 8)
        LevelName.beginner) = 0 := by
  decide

/-- C8 amended: only a missing/unreadable file (`FileNotFoundError` /
`Exception`) reaches the fallback: the board is marked invalid and a complete
random beginner board is generated — 8×8, the level's 10 mines and 1 treasure,
full in-bounds dictionary.  Every content-validation failure (wrong row count,
wrong column count, non-integer token, out-of-range value — exactly the cases
where `rowsWellFormed` is false) instead returns from inside the `try`,
bypassing the fallback: `invalid_board` is set, `mines`/`treasures` keep the
level defaults, and the dictionary holds only the cells inserted before the
failure, all still hidden with stale `adjacent_mines = 0`.  Neither path
raises, and the controller then discards every invalid-marked model by
restarting the application. -/
theorem C8_fallback_only_for_unreadable_files :
    (∀ (perm : List (Int × Int)) (level : LevelName),
      perm.Perm (positionsList 8 8) →
      (controller_init (some none) perm level).invalid_board = true ∧
      (controller_init (some none) perm level).SIZE_X = 8 ∧
      (controller_init (some none) perm level).SIZE_Y = 8 ∧
      mineCount (controller_init (some none) perm level) = 10 ∧
      treasureCount (controller_init (some none) perm level) = 1 ∧
      domainOk (controller_init (some none) perm level)) ∧
    (∀ (rows : List (List Tok)) (perm : List (Int × Int)) (level : LevelName),
      rowsWellFormed rows = false →
      (controller_init (some (some rows)) perm level).invalid_board = true ∧
      (controller_init (some (some rows)) perm level).mines = 10 ∧
      (controller_init (some (some rows)) perm level).treasures = 1 ∧
      (∀ (p : Int × Int) (c : Cell),
        (controller_init (some (some rows)) perm level).cells p = some c →
        c.state = STATE_DEFAULT ∧ c.adjacent_mines = 0)) := by
  constructor
  · intro perm level hperm
    have hE : controller_init (some none) perm level
        = setup_board perm { m0beginner with invalid_board := true } := rfl
    rw [hE]
    refine ⟨rfl, rfl, rfl, ?_, ?_, (setup_board_invars perm _).1⟩
    · exact setup_board_mineCount perm _ hperm (by decide)
    · exact setup_board_treasureCount perm _ hperm (by decide)
  · intro rows perm level hbad
    have hE0 : controller_init (some (some rows)) perm level
        = setup_board_from_file (some rows) perm m0beginner := rfl
    by_cases hlen : rows.length = 8
    · cases hscan : scanRows 0 rows with
      | none =>
        exact absurd ((rowsWellFormed_iff rows).mpr ⟨hlen, hscan⟩) (by simp [hbad])
      | some fp =>
        rw [hE0, setup_board_from_file_midfail rows perm m0beginner fp hlen hscan]
        refine ⟨rfl, rfl, rfl, ?_⟩
        intro p c hc
        have hc2 : leftoverCells rows fp p = some c := hc
        unfold leftoverCells at hc2
        by_cases hP : 0 ≤ p.1 ∧ 0 ≤ p.2 ∧ insertedBefore fp p.1.toNat p.2.toNat = true
        · rw [if_pos hP] at hc2
          have hcc := Option.some.inj hc2
          rw [← hcc]
          exact ⟨rfl, rfl⟩
        · rw [if_neg hP] at hc2
          cases hc2
    · rw [hE0, setup_board_from_file_badlen rows perm m0beginner hlen]
      refine ⟨rfl, rfl, rfl, ?_⟩
      intro p c hc
      have hc2 : m0beginner.cells p = some c := hc
      simp [m0beginner] at hc2

theorem C8_amended_witness :
    ((controller_init (some none) (positionsList 8 8)
        LevelName.beginner).invalid_board = true ∧
      (controller_init (some none) (positionsList 8 8)
        LevelName.beginner).SIZE_X = 8 ∧
      (controller_init (some none) (positionsList 8 8)
        LevelName.beginner).SIZE_Y = 8 ∧
      mineCount (controller_init (some none) (positionsList 8 8)
        LevelName.beginner) = 10 ∧
      treasureCount (controller_init (some none) (positionsList 8 8)
        LevelName.beginner) = 1 ∧
      domainOk (controller_init (some none) (positionsList 8 8)
        LevelName.beginner)) ∧
    ((controller_init (some (some rows7)) (positionsList 8 8)
        LevelName.beginner).invalid_board = true ∧
      (controller_init (some (some rows7)) (positionsList 8 8)
        LevelName.beginner).mines = 10 ∧
      (controller_init (some (some rows7)) (positionsList 8 8)
        LevelName.beginner).treasures = 1 ∧
      (∀ (p : Int × Int) (c : Cell),
        (controller_init (some (some rows7)) (positionsList 8 8)
          LevelName.beginner).cells p = some c →
        c.state = STATE_DEFAULT ∧ c.adjacent_mines = 0)) :=
  ⟨C8_fallback_only_for_unreadable_files.1 (positionsList 8 8) LevelName.beginner
      (List.Perm.refl _),
   C8_fallback_only_for_unreadable_files.2 rows7 (positionsList 8 8)
      LevelName.beginner (by decide)⟩

/-- C9 counterexample: the all-mines 8×8 file is accepted: the board is built
normally (`invalid_board` stays false, the cell dictionary is populated) even
though its mine count plus treasure count equals the number of cells — no
construction-time refusal exists. -/
theorem C9_counterexample :
    mAllMines.mines + mAllMines.treasures ≥ mAllMines.SIZE_X * mAllMines.SIZE_Y ∧
    mAllMines.invalid_board = false ∧
    (mAllMines.cells (0, 0)).isSome = true ∧
    mineCount mAllMines = 64 := by
  decide

/-- C9 amended: construction never fails on degenerate counts.  A well-formed
file is accepted regardless of how many mines/treasures it derives (the board
is built with `invalid_board = false` and the derived counts), and on the
random path a request of `num_mines ≥ SIZE_X*SIZE_Y` silently truncates: every
cell becomes a mine, i.e. fewer than requested when the request exceeds the
board size. -/
theorem C9_amended_no_construction_failure :
    (∀ (rows : List (List Tok)) (perm : List (Int × Int)) (level : LevelName),
      rowsWellFormed rows = true →
      (controller_init (some (some rows)) perm level).invalid_board = false ∧
      (controller_init (some (some rows)) perm level).mines = countTok rows 1 ∧
      (controller_init (some (some rows)) perm level).treasures = countTok rows 2) ∧
    (∀ (m0 : GameModel) (perm : List (Int × Int)),
      perm.Perm (positionsList m0.SIZE_X m0.SIZE_Y) →
      m0.SIZE_X * m0.SIZE_Y ≤ m0.num_mines →
      mineCount (setup_board perm m0) = m0.SIZE_X * m0.SIZE_Y) := by
  constructor
  · intro rows perm level hwf
    have hE : controller_init (some (some rows)) perm level
        = setup_board_from_file (some rows) perm m0beginner := rfl
    rw [hE, setup_board_from_file_success rows perm m0beginner hwf]
    exact ⟨rfl, rfl, rfl⟩
  · intro m0 perm hperm hge
    exact setup_board_mineCount_trunc perm m0 hperm hge

theorem C9_amended_witness :
    ((controller_init (some (some allOnes)) (positionsList 8 8)
        LevelName.beginner).invalid_board = false ∧
      (controller_init (some (some allOnes)) (positionsList 8 8)
        LevelName.beginner).mines = countTok allOnes 1 ∧
      (controller_init (some (some allOnes)) (positionsList 8 8)
        LevelName.beginner).treasures = countTok allOnes 2) ∧
    mineCount (setup_board (positionsList 2 2) mTrunc) = 4 :=
  ⟨C9_amended_no_construction_failure.1 allOnes (positionsList 8 8)
      LevelName.beginner (by decide),
   C9_amended_no_construction_failure.2 mTrunc (positionsList 2 2)
      (List.Perm.refl _) (by decide)⟩

end Minesweeper
